import Mathlib

/-!
Shallow embedding of the SQLite worker of planty-wiki (the document store,
link-graph maintainer, bulk replace pipeline, ad-hoc query sandbox and RPC
gateway with cancellation bookkeeping), together with proofs of the frozen
claims about it.

JavaScript strings are modelled as Lean strings; JS `null`/`undefined` and
absent object fields are modelled as `Option.none`; machine work done by the
SQLite engine on SQL text that the worker merely forwards (full-text MATCH,
the ad-hoc SELECT) is modelled by an explicit engine oracle passed in as an
argument, so that the worker-side logic (validation, sanitization, row
collection, truncation, response envelopes) is fully executable.
-/

namespace PlantyWiki

/-! ## String helpers mirroring the JavaScript primitives used by the worker -/

/-- Whitespace recognized by the model of `String.prototype.trim` (the common
ASCII whitespace characters; JS also trims some rarer Unicode spaces). -/
def isJsWhitespace (c : Char) : Bool :=
  c == ' ' || c == '\t' || c == '\n' || c == '\r' || c == Char.ofNat 11 || c == Char.ofNat 12

/-- Model of `value.trim()`. -/
def jsTrim (s : String) : String :=
  (((s.toList.dropWhile isJsWhitespace).reverse.dropWhile isJsWhitespace).reverse).asString

/-- Model of `s.indexOf(pre) === 0` / `s.slice(0, pre.length) === pre`. -/
def strStartsWith (s pre : String) : Bool :=
  pre.toList.isPrefixOf s.toList

/-- Model of `s.indexOf(c) !== -1` for a single character. -/
def containsChar (s : String) (c : Char) : Bool :=
  s.toList.contains c

/-- Model of `message.indexOf(pat) !== -1` (substring containment). -/
def containsSubstr (s pat : String) : Bool :=
  (List.range (s.toList.length + 1)).any (fun i => pat.toList.isPrefixOf (s.toList.drop i))

/-- Model of `trimmed.replace(/^\/+/, "")`: drop the leading run of slashes. -/
def dropLeadingSlashes (s : String) : String :=
  (s.toList.dropWhile (· == '/')).asString

/-- Source: `stripTrailingSemicolons` (part_000 lines 408-410).
`String(text || "").replace(/;+\s*$/, "")` removes a final run of semicolons
together with any whitespace following it at the end of the string. -/
def stripTrailingSemicolons (text : String) : String :=
  let rcs := text.toList.reverse
  let afterWs := rcs.dropWhile isJsWhitespace
  if afterWs.head? == some ';' then ((afterWs.dropWhile (· == ';')).reverse).asString
  else text

/-- Model of `s.toLowerCase()` (ASCII case folding suffices for the keyword
check it is used in). -/
def jsToLower (s : String) : String :=
  (s.toList.map Char.toLower).asString

/-- Source: `isSelectQuery` (part_000 lines 412-415). -/
def isSelectQuery (text : String) : Bool :=
  let normalized := jsToLower (jsTrim text)
  strStartsWith normalized "select" || strStartsWith normalized "with"

/-- Source: `isSqliteCorruptVtabError` (part_000 lines 601-612), with the error
already projected to its message string. -/
def isSqliteCorruptVtabError (message : String) : Bool :=
  containsSubstr message "SQLITE_CORRUPT_VTAB"

/-- Source: `normalizeWikiLabelToPath` (part_000 lines 261-273). -/
def normalizeWikiLabelToPath (label : String) : Option String :=
  let trimmed := jsTrim label
  if trimmed = "" then none
  else if strStartsWith trimmed "/" then
    if strStartsWith trimmed "/pages/" then some trimmed
    else some ("/pages/" ++ dropLeadingSlashes trimmed)
  else some ("/pages/" ++ trimmed)

/-- Source: `extractAndValidateText` (part_000 lines 158-171).  A `none` input
models a JS `null`/`undefined` value, which the source converts to `""`. -/
def extractAndValidateText (value : Option String) (maxLength : Nat) (allowEmpty : Bool) :
    Option String :=
  let v := value.getD ""
  let trimmed := jsTrim v
  if trimmed = "" && !allowEmpty then none
  else if trimmed.length > maxLength then none
  else some trimmed

/-! ## Data model: rows of the `pages` and `links` tables -/

/-- A row of the `pages` table (also the shape returned by `loadNotes`). -/
structure Note where
  path : String
  title : String
  body : String
  updatedAt : String
  deriving DecidableEq

/-- A row of the `links` table; the primary key is the whole triple. -/
structure LinkRow where
  sourcePath : String
  targetPath : String
  display : String
  deriving DecidableEq

/-- The persisted store: the document table and the link table.  The
trigger-maintained FTS shadow structure mirrors `pages` and carries no
independent state, so it is not represented separately. -/
structure DbState where
  pages : List Note
  links : List LinkRow
  deriving DecidableEq

/-- A cell value returned by the SQLite engine for the ad-hoc query sandbox. -/
inductive Cell where
  | vnull
  | vint (i : Int)
  | vtext (t : String)
  | vundef
  deriving DecidableEq

/-- A row in `rowMode: "object"`: field names with their values, in the key
order `Object.keys` would report. -/
def Row := List (String × Cell)
  deriving DecidableEq

/-- Model of `Object.keys(row)`. -/
def rowKeys (r : Row) : List String := r.map (·.1)

/-- Model of `row[column]`; a missing key yields JS `undefined`. -/
def rowGet (r : Row) (c : String) : Cell :=
  match r.find? (·.1 = c) with
  | some p => p.2
  | none => Cell.vundef

/-- One search hit as built by `handleSearchNotes`. -/
structure SearchRow where
  path : String
  title : String
  snippet : String
  deriving DecidableEq

/-- The result object of `handleRunQuery`. -/
structure QueryResult where
  columns : List String
  rows : List (List Cell)
  truncated : Bool
  deriving DecidableEq

/-- The `result` field of a success envelope. -/
inductive ResVal where
  | rnull
  | rnotes (ns : List Note)
  | rsearch (xs : List SearchRow)
  | rquery (q : QueryResult)
  deriving DecidableEq

/-- A response envelope: `{id, ok:true, result}` or `{id, ok:false, error}`. -/
inductive Response where
  | ok (id : Int) (result : ResVal)
  | err (id : Int) (error : String)
  deriving DecidableEq

def respId : Response → Int
  | .ok id _ => id
  | .err id _ => id

def isErrResponse : Response → Bool
  | .err _ _ => true
  | .ok _ _ => false

def isOkResponse : Response → Bool
  | .ok _ _ => true
  | .err _ _ => false

/-! ## Inbound payloads: a small model of the dynamic JS values the worker
inspects.  Each accessor mirrors one `payload.field` read with its
`typeof` guard. -/

/-- The object fields the worker ever reads from a payload; `none` models an
absent field or one of the wrong runtime type. -/
structure RawObj where
  path : Option String := none
  title : Option String := none
  body : Option String := none
  updatedAt : Option String := none
  query : Option String := none
  targetId : Option Int := none
  deriving DecidableEq

/-- A dynamic payload value: `null`/`undefined`, a string, a plain object, or
an array (whose elements are again dynamic values, as consumed by
`bulkSaveNotes`). -/
inductive RawPayload where
  | jnull
  | jstr (s : String)
  | jobj (o : RawObj)
  | jarr (xs : List RawPayload)

/-- `payload.path` under `(payload || {})`: a string only on an object. -/
def pathField : RawPayload → Option String
  | .jobj o => o.path
  | _ => none

def titleField : RawPayload → Option String
  | .jobj o => o.title
  | _ => none

def bodyField : RawPayload → Option String
  | .jobj o => o.body
  | _ => none

def updatedAtField : RawPayload → Option String
  | .jobj o => o.updatedAt
  | _ => none

/-- `payload && typeof payload.query === "string" ? payload.query : absent`. -/
def queryField : RawPayload → Option String
  | .jobj o => o.query
  | _ => none

/-- `payload && typeof payload.targetId === "number" ? payload.targetId : null`. -/
def targetIdField : RawPayload → Option Int
  | .jobj o => o.targetId
  | _ => none

/-- Whether `Array.isArray(payload)` holds. -/
def isArrayPayload : RawPayload → Bool
  | .jarr _ => true
  | _ => false

/-- The note list `Array.isArray(payload) ? payload : []`. -/
def bulkNotes : RawPayload → List RawPayload
  | .jarr xs => xs
  | _ => []

mutual

/-- Model of `String(payload || "")` as used by `handleDeleteNote`: the falsy
values `null`/`undefined`/`""` become `""`; an object prints as
"[object Object]"; an array joins its stringified elements with commas. -/
def jsToString : RawPayload → String
  | .jnull => ""
  | .jstr s => s
  | .jobj _ => "[object Object]"
  | .jarr xs => String.intercalate "," (jsToStringList xs)

def jsToStringList : List RawPayload → List String
  | [] => []
  | x :: xs => jsToString x :: jsToStringList xs

end

/-! ## Link extraction (part_000 lines 570-587) -/

/-- One extracted wiki link before it is turned into a table row. -/
structure WikiLink where
  targetPath : String
  display : String
  deriving DecidableEq

/-- The scan performed by `matchAll(/\[\[([^[\]]+)\]\]/g)`: at each position,
either match `[[`, one or more characters that are neither bracket, and `]]`
(continuing after the match), or advance one character.  Returns the captured
groups in order. -/
def linkScan : List Char → List String
  | '[' :: '[' :: rest =>
      let cap := rest.takeWhile (fun c => !(c == '[') && !(c == ']'))
      let after := rest.drop cap.length
      if cap ≠ [] ∧ after.take 2 = [']', ']'] then
        cap.asString :: linkScan (after.drop 2)
      else
        linkScan ('[' :: rest)
  | _ :: rest => linkScan rest
  | [] => []
  termination_by cs => cs.length
  decreasing_by
    all_goals simp_all [List.length_drop]
    omega

/-- Source: `extractWikiLinksFromBody` inner loop — trim each capture, skip
empties, deduplicate by the raw label (first occurrence wins), then normalize
the label to a target path. -/
def extractLoop (seen : List String) : List String → List WikiLink
  | [] => []
  | m :: ms =>
      let raw := jsTrim m
      if raw = "" || seen.contains raw then extractLoop seen ms
      else
        match normalizeWikiLabelToPath raw with
        | none => extractLoop (raw :: seen) ms
        | some t => ⟨t, raw⟩ :: extractLoop (raw :: seen) ms

/-- Source: `extractWikiLinksFromBody` (part_000 lines 570-587). -/
def extractWikiLinksFromBody (body : String) : List WikiLink :=
  extractLoop [] (linkScan body.toList)

/-- One `INSERT OR IGNORE INTO links` statement: into a table whose primary
key is the whole triple, this appends the row only when it is absent. -/
def insertLinkStep (sourcePath : String) (acc : List LinkRow) (l : WikiLink) : List LinkRow :=
  let row : LinkRow := ⟨sourcePath, l.targetPath, l.display⟩
  if acc.contains row then acc else acc ++ [row]

/-- Source: `insertLinksForSource` (part_000 lines 549-568). -/
def insertLinksForSource (links : List LinkRow) (sourcePath : String) (body : String) :
    List LinkRow :=
  (extractWikiLinksFromBody body).foldl (insertLinkStep sourcePath) links

/-- Source: `replaceLinksForSource` (part_000 lines 537-547): delete all link
rows with the given source, then insert the links extracted from the body. -/
def replaceLinksForSource (links : List LinkRow) (sourcePath : String) (body : String) :
    List LinkRow :=
  insertLinksForSource (links.filter (fun l => !(l.sourcePath == sourcePath))) sourcePath body

/-! ## Document store handlers.  Each `handleX` mirrors the source function of
the same name, returning the updated store together with the response envelope
it hands to `postIfNotCancelled`. -/

/-- Insertion step of an insertion sort; used to model `ORDER BY`. -/
def insertSortedBy (le : Note → Note → Bool) (r : Note) : List Note → List Note
  | [] => [r]
  | x :: xs => if le r x then r :: x :: xs else x :: insertSortedBy le r xs

/-- Insertion sort by the given comparison. -/
def sortNotesBy (le : Note → Note → Bool) (l : List Note) : List Note :=
  l.foldr (insertSortedBy le) []

/-- `ORDER BY path` ascending (SQLite BINARY collation on UTF-8 text agrees
with codepoint-lexicographic order on strings). -/
def sortByPath (l : List Note) : List Note :=
  sortNotesBy (fun a b => decide (a.path ≤ b.path)) l

/-- `ORDER BY updated_at DESC`. -/
def sortByUpdatedAtDesc (l : List Note) : List Note :=
  sortNotesBy (fun a b => decide (b.updatedAt ≤ a.updatedAt)) l

/-- `INSERT INTO pages ... ON CONFLICT(path) DO UPDATE SET title = ..., body =
..., updated_at = ...`: full overwrite of the conflicting row, else append. -/
def upsertPage (pages : List Note) (path title body updatedAt : String) : List Note :=
  if pages.any (fun r => r.path == path) then
    pages.map (fun r => if r.path == path then ⟨r.path, title, body, updatedAt⟩ else r)
  else
    pages ++ [⟨path, title, body, updatedAt⟩]

/-- Source: `handleLoadNotes` (part_000 lines 115-131). -/
def handleLoadNotes (db : DbState) (id : Int) : DbState × Response :=
  (db, .ok id (.rnotes (sortByPath db.pages)))

/-- Source: `handleSaveNote` (part_000 lines 133-156).  `now` stands for
`new Date().toISOString()`. -/
def handleSaveNote (db : DbState) (id : Int) (payload : RawPayload) (now : String) :
    DbState × Response :=
  let path? := extractAndValidateText (pathField payload) 512 false
  let title? := extractAndValidateText (titleField payload) 1024 false
  let body? := extractAndValidateText (bodyField payload) 50000 true
  match path?, title?, body? with
  | some path, some title, some body =>
      let updatedAt := (updatedAtField payload).getD now
      ({ pages := upsertPage db.pages path title body updatedAt,
         links := replaceLinksForSource db.links path body },
       .ok id .rnull)
  | _, _, _ => (db, .err id "Invalid note payload")

/-- Source: `handleDeleteNote` (part_000 lines 173-193). -/
def handleDeleteNote (db : DbState) (id : Int) (payload : RawPayload) : DbState × Response :=
  let path :=
    match payload with
    | .jobj o => match o.path with | some p => p | none => jsToString payload
    | _ => jsToString payload
  if path = "" then (db, .err id "Missing note path for delete")
  else
    ({ pages := db.pages.filter (fun r => !(r.path == path)),
       links := db.links.filter (fun l => !(l.sourcePath == path)) },
     .ok id .rnull)

/-- Sanitized record produced by `sanitizeNoteForImport`. -/
structure SanitizedNote where
  path : String
  title : String
  body : String
  updatedAt : String
  deriving DecidableEq

/-- Source: `sanitizeNoteForImport` (part_000 lines 245-259); throwing is
modelled with `Except`. -/
def sanitizeNoteForImport (note : RawPayload) (fallbackUpdatedAt : String) (index : Nat) :
    Except String SanitizedNote :=
  let path? := extractAndValidateText (pathField note) 512 false
  let title? := extractAndValidateText (titleField note) 1024 false
  let body? := extractAndValidateText (bodyField note) 50000 true
  match path?, title?, body? with
  | some path, some title, some body =>
      let updatedAt :=
        match updatedAtField note with
        | some u => if jsTrim u = "" then fallbackUpdatedAt else u
        | none => fallbackUpdatedAt
      .ok ⟨path, title, body, updatedAt⟩
  | _, _, _ => .error ("Invalid note payload during import (index " ++ toString index ++ ")")

/-- The per-record loop of the bulk import transaction body: upsert each
sanitized record and insert its links, aborting on the first invalid record. -/
def bulkInsertLoop (db : DbState) (now : String) : Nat → List RawPayload → Except String DbState
  | _, [] => .ok db
  | i, n :: rest =>
      match sanitizeNoteForImport n now i with
      | .error e => .error e
      | .ok sn =>
          bulkInsertLoop
            { pages := upsertPage db.pages sn.path sn.title sn.body sn.updatedAt,
              links := insertLinksForSource db.links sn.path sn.body }
            now (i + 1) rest

/-- One attempt of the bulk import transaction: `BEGIN; DELETE FROM pages;
DELETE FROM links; ...inserts...; COMMIT`.  Because a failed attempt is rolled
back wholesale, an attempt is modelled as computing the replacement store from
empty; `fault` injects an engine-level failure of the transaction (for example
the SQLITE_CORRUPT_VTAB failure of the FTS triggers), which in the source
surfaces as a thrown exception. -/
def bulkAttempt (fault : Option String) (notes : List RawPayload) (now : String) :
    Except String DbState :=
  match fault with
  | some m => .error m
  | none => bulkInsertLoop ⟨[], []⟩ now 0 notes

/-- The error string posted on bulk failure:
`error && error.message ? String(error.message) : "Failed to import notes"`. -/
def bulkErrMsg (e : String) : String :=
  if e = "" then "Failed to import notes" else e

/-- Source: `handleBulkSaveNotes` (part_000 lines 195-243).  The two-attempt
loop is unrolled: a first failure whose message carries the corrupt-vtab
signature triggers `rebuildFtsStructures` (which only drops and recreates the
FTS shadow structures, not part of `DbState`) and exactly one retry; any other
failure, or a second failure, is posted as an error and the store is left as
it was (ROLLBACK). -/
def handleBulkSaveNotes (db : DbState) (id : Int) (payload : RawPayload) (now : String)
    (fault0 fault1 : Option String) : DbState × Response :=
  let notes := bulkNotes payload
  match bulkAttempt fault0 notes now with
  | .ok db' => (db', .ok id .rnull)
  | .error e0 =>
      if isSqliteCorruptVtabError e0 then
        match bulkAttempt fault1 notes now with
        | .ok db' => (db', .ok id .rnull)
        | .error e1 => (db, .err id (bulkErrMsg e1))
      else (db, .err id (bulkErrMsg e0))

/-- Source: `handleSearchNotes` (part_000 lines 275-315).  The FTS MATCH is
delegated to the engine oracle. -/
def handleSearchNotes (db : DbState) (id : Int) (payload : RawPayload)
    (engine : Except String (List SearchRow)) : DbState × Response :=
  let query := (queryField payload).map jsTrim |>.getD ""
  if query = "" then (db, .ok id (.rsearch []))
  else
    match engine with
    | .ok rows => (db, .ok id (.rsearch rows))
    | .error msg => (db, .err id msg)

/-- The SQL of `handleListBacklinks`: pages joined to link rows targeting the
path, grouped by source page, newest first, capped at 100. -/
def backlinksQuery (db : DbState) (target : String) : List Note :=
  let srcs := (db.links.filter (fun l => l.targetPath == target)).map (·.sourcePath)
  ((sortByUpdatedAtDesc (db.pages.filter (fun p => srcs.contains p.path))).take 100)

/-- Source: `handleListBacklinks` (part_000 lines 317-352). -/
def handleListBacklinks (db : DbState) (id : Int) (payload : RawPayload) : DbState × Response :=
  let targetPath :=
    match payload with
    | .jobj o => match o.path with | some p => jsTrim p | none => ""
    | .jstr s => jsTrim s
    | _ => ""
  if targetPath = "" then (db, .ok id (.rnotes []))
  else (db, .ok id (.rnotes (backlinksQuery db targetPath)))

/-- `MAX_QUERY_ROWS` (part_000 line 3). -/
def MAX_QUERY_ROWS : Nat := 200

/-- One invocation of the row-collection callback of `handleRunQuery`: the
column list is taken from the first row whose keys are seen while it is still
empty, and a projected row is pushed only while
`rows.length <= MAX_QUERY_ROWS`. -/
def collectCappedStep (st : List String × List (List Cell)) (row : Row) :
    List String × List (List Cell) :=
  let cols := if st.1.isEmpty then rowKeys row else st.1
  (cols, if st.2.length ≤ MAX_QUERY_ROWS then st.2 ++ [cols.map (rowGet row)] else st.2)

/-- The row-collection callback of `handleRunQuery` over all yielded rows. -/
def collectCapped (yielded : List Row) : List String × List (List Cell) :=
  yielded.foldl collectCappedStep ([], [])

/-- The same collection step with no cap: every yielded row is projected.
Used to state what "all matching rows" means. -/
def collectAllStep (st : List String × List (List Cell)) (row : Row) :
    List String × List (List Cell) :=
  let cols := if st.1.isEmpty then rowKeys row else st.1
  (cols, st.2 ++ [cols.map (rowGet row)])

/-- The uncapped collection of every yielded row. -/
def collectAll (yielded : List Row) : List String × List (List Cell) :=
  yielded.foldl collectAllStep ([], [])

/-- Source: `handleRunQuery` (part_000 lines 354-406).  The execution of the
sanitized SELECT is delegated to the engine oracle; everything before it (the
sandbox guard) and after it (truncation and the result envelope) is the
worker's own logic. -/
def handleRunQuery (db : DbState) (id : Int) (payload : RawPayload)
    (engine : Except String (List Row)) : DbState × Response :=
  let query := (queryField payload).map jsTrim |>.getD ""
  if query = "" then (db, .err id "Query is empty")
  else
    let sanitized := stripTrailingSemicolons query
    if containsChar sanitized ';' then (db, .err id "Only a single query is supported")
    else if !isSelectQuery sanitized then (db, .err id "Only SELECT queries are supported")
    else
      match engine with
      | .error msg => (db, .err id msg)
      | .ok yielded =>
          let st := collectCapped yielded
          let truncated := st.2.length > MAX_QUERY_ROWS
          let rows := if truncated then st.2.take MAX_QUERY_ROWS else st.2
          (db, .ok id (.rquery ⟨st.1, rows, truncated⟩))

/-! ## RPC gateway: cancellation bookkeeping and dispatch (part_000 lines
1-75 and 614-639).  `cancelledRequestIds` models the JS `Set` as a
duplicate-free list (adds are ignored for present members); `outbox` collects
the envelopes passed to `self.postMessage`, in order. -/

/-- `cancelledRequestIds.add(x)` on a JS `Set`. -/
def setAdd (l : List Int) (x : Int) : List Int :=
  if l.contains x then l else x :: l

/-- The whole worker-visible state: the cancelled-id set, whether the memoized
db initialization produced a usable handle, the store itself, and the list of
posted response envelopes. -/
structure WorkerState where
  cancelledRequestIds : List Int
  dbAvailable : Bool
  db : DbState
  outbox : List Response
  deriving DecidableEq

/-- Source: `markRequestCancelled` (part_000 lines 614-619); `none` models a
non-number `targetId`. -/
def markRequestCancelled (c : List Int) (targetId : Option Int) : List Int :=
  match targetId with
  | some t => if t ≤ 0 then c else setAdd c t
  | none => c

/-- Source: `isRequestCancelled` (part_000 lines 621-623). -/
def isRequestCancelled (c : List Int) (id : Int) : Bool :=
  c.contains id

/-- Source: `consumeCancelledRequest` (part_000 lines 625-631): reports whether
the id was cancelled and removes it from the set on that first use. -/
def consumeCancelledRequest (c : List Int) (id : Int) : Bool × List Int :=
  if c.contains id then (true, c.erase id) else (false, c)

/-- Source: `postIfNotCancelled` (part_000 lines 633-639). -/
def postIfNotCancelled (s : WorkerState) (id : Int) (message : Response) : WorkerState :=
  match consumeCancelledRequest s.cancelledRequestIds id with
  | (true, c') => { s with cancelledRequestIds := c' }
  | (false, _) => { s with outbox := s.outbox ++ [message] }

/-- The check at part_000 lines 19-23, performed when a request is received:
a request whose id is already cancelled consumes the cancellation and is
dropped before any storage work; the boolean reports whether processing
proceeds. -/
def arriveCheck (s : WorkerState) (id : Int) : WorkerState × Bool :=
  if isRequestCancelled s.cancelledRequestIds id then
    ({ s with cancelledRequestIds := (consumeCancelledRequest s.cancelledRequestIds id).2 },
     false)
  else (s, true)

/-- The environment a dispatched request runs against: the engine oracles for
the two operations that execute caller-supplied SQL, the bulk-transaction
fault injections for the two attempts, and the wall clock reading
`new Date().toISOString()`. -/
structure Env where
  searchOutcome : Except String (List SearchRow)
  queryOutcome : Except String (List Row)
  fault0 : Option String
  fault1 : Option String
  now : String

/-- The dispatch that runs after `await createOrGetDbPromise()` resolves
(part_000 lines 26-74): the null-db check, the type dispatch, and the
unknown-type fallback, each posting its response through
`postIfNotCancelled`. -/
def finishPhase (s : WorkerState) (id : Int) (ty : String) (payload : RawPayload) (env : Env) :
    WorkerState :=
  if s.dbAvailable = false then
    postIfNotCancelled s id (.err id "SQLite database is not available")
  else if ty = "loadNotes" then
    let r := handleLoadNotes s.db id
    postIfNotCancelled { s with db := r.1 } id r.2
  else if ty = "saveNote" then
    let r := handleSaveNote s.db id payload env.now
    postIfNotCancelled { s with db := r.1 } id r.2
  else if ty = "deleteNote" then
    let r := handleDeleteNote s.db id payload
    postIfNotCancelled { s with db := r.1 } id r.2
  else if ty = "bulkSaveNotes" then
    let r := handleBulkSaveNotes s.db id payload env.now env.fault0 env.fault1
    postIfNotCancelled { s with db := r.1 } id r.2
  else if ty = "searchNotes" then
    let r := handleSearchNotes s.db id payload env.searchOutcome
    postIfNotCancelled { s with db := r.1 } id r.2
  else if ty = "listBacklinks" then
    let r := handleListBacklinks s.db id payload
    postIfNotCancelled { s with db := r.1 } id r.2
  else if ty = "runQuery" then
    let r := handleRunQuery s.db id payload env.queryOutcome
    postIfNotCancelled { s with db := r.1 } id r.2
  else
    postIfNotCancelled s id (.err id ("Unknown message type: " ++ ty))

/-- An inbound message as read off `event.data`: `id` is `none` when
`typeof data.id !== "number"`, `type` is `none` when not a string. -/
structure RawMessage where
  id : Option Int
  type : Option String
  payload : RawPayload

/-- Source: `self.onmessage` (part_000 lines 5-75), with the request processed
to completion in one step (the atomic view; the interleaved view is the trace
model below). -/
def onmessage (s : WorkerState) (m : RawMessage) (env : Env) : WorkerState :=
  match m.id, m.type with
  | some id, some ty =>
      if ty = "cancelRequest" then
        { s with cancelledRequestIds :=
            markRequestCancelled s.cancelledRequestIds (targetIdField m.payload) }
      else
        match arriveCheck s id with
        | (s', false) => s'
        | (s', true) => finishPhase s' id ty m.payload env
  | _, _ => s

/-! ## Trace model of the worker event loop.  A request whose handler must
await the memoized database promise is processed in two atomic phases: the
arrival check (part_000 lines 19-23) and, later, the dispatch plus response
post (lines 26-74); cancel notices and malformed messages are processed in one
phase.  Between the two phases of one request, any other messages may be
processed. -/

/-- One atomic scheduler step. -/
inductive WEvent where
  | cancelMsg (payload : RawPayload)
  | badMsg
  | arrive (id : Int)
  | finish (id : Int) (ty : String) (payload : RawPayload) (env : Env)

/-- The state transition of one scheduler step. -/
def stepEvent (s : WorkerState) : WEvent → WorkerState
  | .cancelMsg p =>
      { s with cancelledRequestIds :=
          markRequestCancelled s.cancelledRequestIds (targetIdField p) }
  | .badMsg => s
  | .arrive id => (arriveCheck s id).1
  | .finish id ty p env => finishPhase s id ty p env

/-- Run a whole trace. -/
def runEvents (s : WorkerState) (tr : List WEvent) : WorkerState :=
  tr.foldl stepEvent s

/-- Whether an event is the response-sending phase of request `N`. -/
def isFinishFor (N : Int) : WEvent → Bool
  | .finish id _ _ _ => id == N
  | _ => false

/-- Whether an event is the arrival phase of request `N`. -/
def isArriveFor (N : Int) : WEvent → Bool
  | .arrive id => id == N
  | _ => false

/-- Whether an event is a cancel notice naming `N`. -/
def isCancelFor (N : Int) : WEvent → Bool
  | .cancelMsg p => targetIdField p == some N
  | _ => false

/-- Whether an event is one of the two checkpoints of request `N` at which the
cancelled set is consulted. -/
def touchesId (N : Int) (e : WEvent) : Bool :=
  isArriveFor N e || isFinishFor N e

/-- No envelope with id `N` has been posted. -/
def noResponseFor (N : Int) (s : WorkerState) : Bool :=
  s.outbox.all (fun r => !(respId r == N))

/-- The control-flow condition one event imposes on the rest of a schedule:
when the arrival phase of request `N` finds `N` cancelled, the worker returns
without scheduling the finish phase, so no finish event for `N` may occur
later in the trace. -/
def wfGuard (N : Int) (s : WorkerState) (e : WEvent) (rest : List WEvent) : Bool :=
  match e with
  | .arrive id =>
      if id == N && isRequestCancelled s.cancelledRequestIds N then
        rest.all (fun x => !(isFinishFor N x))
      else true
  | _ => true

/-- Control-flow well-formedness of a whole schedule, checked along the run. -/
def wfSchedule (N : Int) : WorkerState → List WEvent → Bool
  | _, [] => true
  | s, e :: rest => wfGuard N s e rest && wfSchedule N (stepEvent s e) rest

/-! ## Helper lemmas -/

lemma strStartsWith_slash_of_pages {s : String} (h : strStartsWith s "/pages/" = true) :
    strStartsWith s "/" = true := by
  unfold strStartsWith at *
  rw [List.isPrefixOf_iff_prefix] at *
  exact List.IsPrefix.trans (by decide) h

lemma strStartsWith_empty_pages : strStartsWith "" "/pages/" = false := by decide

lemma strStartsWith_empty_slash : strStartsWith "" "/" = false := by decide

/-- A record is invalid for import exactly when one of its three text fields
fails validation; the import index only affects the error message. -/
def invalidImportNote (n : RawPayload) : Bool :=
  (extractAndValidateText (pathField n) 512 false).isNone ||
  (extractAndValidateText (titleField n) 1024 false).isNone ||
  (extractAndValidateText (bodyField n) 50000 true).isNone

lemma sanitizeNoteForImport_error_of_invalid {n : RawPayload} (h : invalidImportNote n = true)
    (fb : String) (i : Nat) :
    sanitizeNoteForImport n fb i =
      .error ("Invalid note payload during import (index " ++ toString i ++ ")") := by
  cases hp : extractAndValidateText (pathField n) 512 false <;>
    cases ht : extractAndValidateText (titleField n) 1024 false <;>
      cases hb : extractAndValidateText (bodyField n) 50000 true <;>
        simp_all [sanitizeNoteForImport, invalidImportNote]

lemma bulkInsertLoop_error_of_invalid :
    ∀ (notes : List RawPayload) (db : DbState) (now : String) (i : Nat),
      (∃ n ∈ notes, invalidImportNote n = true) →
      ∃ e, bulkInsertLoop db now i notes = .error e := by
  intro notes
  induction notes with
  | nil => intro db now i h; rcases h with ⟨n, hn, _⟩; cases hn
  | cons n rest ih =>
      intro db now i h
      rcases h with ⟨m, hm, hinv⟩
      rcases List.mem_cons.mp hm with rfl | hmem
      · exact ⟨_, by rw [bulkInsertLoop, sanitizeNoteForImport_error_of_invalid hinv]⟩
      · cases hs : sanitizeNoteForImport n now i with
        | error e => exact ⟨e, by rw [bulkInsertLoop, hs]⟩
        | ok sn =>
            obtain ⟨e, he⟩ := ih _ now (i + 1) ⟨m, hmem, hinv⟩
            exact ⟨e, by rw [bulkInsertLoop, hs]; exact he⟩

lemma bulkAttempt_error_of_invalid {notes : List RawPayload} (fault : Option String)
    (now : String) (h : ∃ n ∈ notes, invalidImportNote n = true) :
    ∃ e, bulkAttempt fault notes now = .error e := by
  cases fault with
  | some m => exact ⟨m, rfl⟩
  | none => exact bulkInsertLoop_error_of_invalid notes ⟨[], []⟩ now 0 h

/-! ## Claim theorems -/

/-- C3 counterexample: the claim says a label that is already prefixed but
carries extra leading slashes, such as "//pages/X", is normalized to the
prefixed path "/pages/X" without the prefix being added a second time; the
code instead strips the leading slashes and prepends "/pages/" to the
remainder "pages/X", producing "/pages/pages/X" — the prefix appears twice. -/
theorem normalizeDoublePrefixCounterexample :
    normalizeWikiLabelToPath "//pages/X" = some "/pages/pages/X" ∧
      "/pages/pages/X" ≠ "/pages/X" := by
  constructor
  · decide
  · decide

/-- C3 (amended): after trimming, a label beginning with "/pages/" is kept
unchanged; a nonempty label not beginning with "/" is prefixed with
"/pages/"; and a label beginning with "/" but not with "/pages/" (in
particular one with extra leading slashes) has its whole leading run of
slashes stripped and is then prefixed with "/pages/" — so "//pages/X"
normalizes to "/pages/pages/X", not to "/pages/X". -/
theorem normalizeWikiLabelCases (label : String) :
    (strStartsWith (jsTrim label) "/pages/" = true →
      normalizeWikiLabelToPath label = some (jsTrim label)) ∧
    (jsTrim label ≠ "" → strStartsWith (jsTrim label) "/" = false →
      normalizeWikiLabelToPath label = some ("/pages/" ++ jsTrim label)) ∧
    (strStartsWith (jsTrim label) "/" = true → strStartsWith (jsTrim label) "/pages/" = false →
      normalizeWikiLabelToPath label = some ("/pages/" ++ dropLeadingSlashes (jsTrim label))) ∧
    (jsTrim label = "" → normalizeWikiLabelToPath label = none) := by
  refine ⟨?_, ?_, ?_, ?_⟩
  · intro h
    have hne : jsTrim label ≠ "" := by
      intro he; rw [he] at h; exact absurd h (by decide)
    unfold normalizeWikiLabelToPath
    rw [if_neg hne, if_pos (strStartsWith_slash_of_pages h), if_pos h]
  · intro hne hslash
    unfold normalizeWikiLabelToPath
    rw [if_neg hne, if_neg (by simp [hslash])]
  · intro hslash hpages
    have hne : jsTrim label ≠ "" := by
      intro he; rw [he] at hslash; exact absurd hslash (by decide)
    unfold normalizeWikiLabelToPath
    rw [if_neg hne, if_pos hslash, if_neg (by simp [hpages])]
  · intro he
    unfold normalizeWikiLabelToPath
    rw [if_pos he]

/-- Witness for C3 amended: the three branches evaluated at "/pages/X",
"Alpha" and "//pages/X". -/
theorem normalizeWikiLabelCasesWitness :
    normalizeWikiLabelToPath "/pages/X" = some "/pages/X" ∧
      normalizeWikiLabelToPath "Alpha" = some "/pages/Alpha" ∧
      normalizeWikiLabelToPath "//pages/X" = some "/pages/pages/X" := by
  refine ⟨?_, ?_, ?_⟩
  · have h := (normalizeWikiLabelCases "/pages/X").1 (by decide)
    simpa using h
  · have h := (normalizeWikiLabelCases "Alpha").2.1 (by decide) (by decide)
    simpa using h
  · have h := (normalizeWikiLabelCases "//pages/X").2.2.1 (by decide) (by decide)
    simpa using h

/-- C1: whenever the bulk import posts an error — a record failing validation
(which aborts the whole batch), an engine fault on the only attempt, or a
second failure after the corrupt-index rebuild — the document table and the
link table are returned exactly as they were before the attempt; and an
invalid record in the list always produces an error, for every fault
scenario. -/
theorem bulkSaveNotesAtomic (db : DbState) (id : Int) (payload : RawPayload) (now : String)
    (fault0 fault1 : Option String) :
    (isErrResponse (handleBulkSaveNotes db id payload now fault0 fault1).2 = true →
      (handleBulkSaveNotes db id payload now fault0 fault1).1 = db) ∧
    ((∃ n ∈ bulkNotes payload, invalidImportNote n = true) →
      isErrResponse (handleBulkSaveNotes db id payload now fault0 fault1).2 = true) := by
  constructor
  · intro herr
    simp only [handleBulkSaveNotes] at herr ⊢
    cases h0 : bulkAttempt fault0 (bulkNotes payload) now with
    | ok db' => rw [h0] at herr; simp [isErrResponse] at herr
    | error e0 =>
        rw [h0] at herr
        dsimp only at herr ⊢
        by_cases hc : isSqliteCorruptVtabError e0 = true
        · rw [if_pos hc] at herr ⊢
          cases h1 : bulkAttempt fault1 (bulkNotes payload) now with
          | ok db' => rw [h1] at herr; simp [isErrResponse] at herr
          | error e1 => rfl
        · rw [if_neg hc]
  · intro hinv
    simp only [handleBulkSaveNotes]
    obtain ⟨e0, h0⟩ := bulkAttempt_error_of_invalid fault0 now hinv
    obtain ⟨e1, h1⟩ := bulkAttempt_error_of_invalid fault1 now hinv
    rw [h0]
    dsimp only
    by_cases hc : isSqliteCorruptVtabError e0 = true
    · rw [if_pos hc, h1]; rfl
    · rw [if_neg hc]; rfl

/-- Witness for C1: a batch pairing a valid record with a record whose title
is missing errors out and leaves a nonempty prior store untouched. -/
theorem bulkSaveNotesAtomicWitness :
    (∃ n ∈ bulkNotes (RawPayload.jarr
        [.jobj { path := some "/pages/a", title := some "A", body := some "" },
         .jobj { path := some "/pages/b" }]), invalidImportNote n = true) ∧
    isErrResponse (handleBulkSaveNotes ⟨[⟨"/pages/old", "Old", "", "2024"⟩], []⟩ 3
        (RawPayload.jarr
          [.jobj { path := some "/pages/a", title := some "A", body := some "" },
           .jobj { path := some "/pages/b" }]) "2025" none none).2 = true ∧
    (handleBulkSaveNotes ⟨[⟨"/pages/old", "Old", "", "2024"⟩], []⟩ 3
        (RawPayload.jarr
          [.jobj { path := some "/pages/a", title := some "A", body := some "" },
           .jobj { path := some "/pages/b" }]) "2025" none none).1 =
      ⟨[⟨"/pages/old", "Old", "", "2024"⟩], []⟩ := by
  have h := bulkSaveNotesAtomic ⟨[⟨"/pages/old", "Old", "", "2024"⟩], []⟩ 3
    (RawPayload.jarr
      [.jobj { path := some "/pages/a", title := some "A", body := some "" },
       .jobj { path := some "/pages/b" }]) "2025" none none
  have hinv : ∃ n ∈ bulkNotes (RawPayload.jarr
      [.jobj { path := some "/pages/a", title := some "A", body := some "" },
       .jobj { path := some "/pages/b" }]), invalidImportNote n = true := by
    refine ⟨.jobj { path := some "/pages/b" }, by simp [bulkNotes], by decide⟩
  have herr := h.2 hinv
  exact ⟨hinv, herr, h.1 herr⟩

/-- C9: a bulkSaveNotes payload that is not an array (null, a string, an
object) is coerced to the empty list, so the transaction deletes every
document row and every link row, commits, and the response is ok with a null
result — the store is left empty.  (Stated for a fault-free engine; an
injected engine fault follows the C1 error path instead.) -/
theorem bulkSaveNotesNonArrayClearsStore (db : DbState) (id : Int) (payload : RawPayload)
    (now : String) (h : isArrayPayload payload = false) :
    handleBulkSaveNotes db id payload now none none = (⟨[], []⟩, .ok id .rnull) := by
  cases payload <;> simp_all [handleBulkSaveNotes, bulkNotes, bulkAttempt, bulkInsertLoop,
    isArrayPayload]

/-- Witness for C9: a null payload against a nonempty store empties it and
reports success. -/
theorem bulkSaveNotesNonArrayClearsStoreWitness :
    handleBulkSaveNotes ⟨[⟨"/pages/a", "A", "", "2024"⟩], [⟨"/pages/a", "/pages/b", "b"⟩]⟩ 9
        RawPayload.jnull "2025" none none = (⟨[], []⟩, .ok 9 .rnull) :=
  bulkSaveNotesNonArrayClearsStore ⟨[⟨"/pages/a", "A", "", "2024"⟩],
    [⟨"/pages/a", "/pages/b", "b"⟩]⟩ 9 RawPayload.jnull "2025" rfl

/-- C10: a message whose id is not a number or whose type is not a string is
dropped before any work, and a cancelRequest whose targetId is absent,
non-numeric, or not positive leaves the worker state — storage, cancelled
set and outbox — exactly unchanged, with no response envelope emitted. -/
theorem malformedMessagesDroppedSilently (s : WorkerState) (m : RawMessage) (env : Env)
    (h : (m.id = none ∨ m.type = none) ∨
      (m.type = some "cancelRequest" ∧
        (targetIdField m.payload = none ∨ ∃ t, targetIdField m.payload = some t ∧ t ≤ 0))) :
    onmessage s m env = s := by
  rcases m with ⟨mid, mty, mp⟩
  rcases h with (h | h) | ⟨hty, hbad⟩
  · simp only at h; subst h
    cases mty <;> rfl
  · simp only at h; subst h
    cases mid <;> rfl
  · simp only at hty; subst hty
    cases mid with
    | none => rfl
    | some i =>
        simp only [onmessage, if_pos rfl]
        rcases hbad with hnone | ⟨t, ht, hle⟩
        · rw [hnone]; rfl
        · rw [ht]; simp [markRequestCancelled, hle]

/-- Witness for C10: a message with a string id, and a cancelRequest naming a
non-positive target, both leave the initial worker state untouched. -/
theorem malformedMessagesDroppedSilentlyWitness :
    onmessage ⟨[], true, ⟨[], []⟩, []⟩ ⟨none, some "saveNote", .jnull⟩
        ⟨.ok [], .ok [], none, none, "2025"⟩ = ⟨[], true, ⟨[], []⟩, []⟩ ∧
      onmessage ⟨[], true, ⟨[], []⟩, []⟩
          ⟨some 4, some "cancelRequest", .jobj { targetId := some (-1) }⟩
          ⟨.ok [], .ok [], none, none, "2025"⟩ = ⟨[], true, ⟨[], []⟩, []⟩ :=
  ⟨malformedMessagesDroppedSilently _ _ _ (Or.inl (Or.inl rfl)),
   malformedMessagesDroppedSilently _ _ _ (Or.inr ⟨rfl, Or.inr ⟨-1, rfl, by decide⟩⟩)⟩

/-- The rejection branch, if any, that the sandbox guard of `handleRunQuery`
takes for a given query string, with its error message. -/
def sandboxRejectError (q : String) : Option String :=
  let query := jsTrim q
  if query = "" then some "Query is empty"
  else
    let sanitized := stripTrailingSemicolons query
    if containsChar sanitized ';' then some "Only a single query is supported"
    else if !isSelectQuery sanitized then some "Only SELECT queries are supported"
    else none

lemma handleRunQuery_of_reject {q msg : String} (db : DbState) (id : Int) (p : RawPayload)
    (e : Except String (List Row)) (hq : queryField p = some q)
    (hrej : sandboxRejectError q = some msg) :
    handleRunQuery db id p e = (db, .err id msg) := by
  simp only [handleRunQuery, hq, Option.map_some', Option.getD_some]
  simp only [sandboxRejectError] at hrej
  by_cases h0 : jsTrim q = ""
  · rw [if_pos h0] at hrej ⊢
    simp at hrej; rw [hrej]
  · rw [if_neg h0] at hrej ⊢
    by_cases h1 : containsChar (stripTrailingSemicolons (jsTrim q)) ';' = true
    · rw [if_pos h1] at hrej ⊢
      simp at hrej; rw [hrej]
    · rw [if_neg h1] at hrej ⊢
      by_cases h2 : (!isSelectQuery (stripTrailingSemicolons (jsTrim q))) = true
      · rw [if_pos h2] at hrej ⊢
        simp at hrej; rw [hrej]
      · rw [if_neg h2] at hrej
        simp at hrej

lemma sandboxRejectError_isSome_of_bad {q : String}
    (hbad : containsChar (stripTrailingSemicolons (jsTrim q)) ';' = true ∨
      isSelectQuery (stripTrailingSemicolons (jsTrim q)) = false) :
    ∃ msg, sandboxRejectError q = some msg := by
  simp only [sandboxRejectError]
  by_cases h0 : jsTrim q = ""
  · exact ⟨_, by rw [if_pos h0]⟩
  · rw [if_neg h0]
    by_cases h1 : containsChar (stripTrailingSemicolons (jsTrim q)) ';' = true
    · exact ⟨_, by rw [if_pos h1]⟩
    · rw [if_neg h1]
      rcases hbad with hbad | hbad
      · exact absurd hbad h1
      · exact ⟨_, by rw [if_pos (by simp [hbad])]⟩

/-- C5: for every input string, the sandbox first strips trailing semicolons
from the trimmed query and rejects — with an error response, the store
untouched, and a result independent of whatever the engine would have
returned — whenever a semicolon remains in the stripped text or the stripped
text does not begin (case-insensitively) with select/with; in particular
"DELETE FROM pages" and "SELECT 1; SELECT 2" are rejected unexecuted, while
"SELECT path FROM pages" passes the guard and is executed (ok for every
engine row set). -/
theorem runQuerySandboxRejection (db : DbState) (id : Int) (p : RawPayload)
    (e₁ e₂ : Except String (List Row)) (q : String) (rowsArb : List Row)
    (hq : queryField p = some q) :
    ((containsChar (stripTrailingSemicolons (jsTrim q)) ';' = true ∨
        isSelectQuery (stripTrailingSemicolons (jsTrim q)) = false) →
      handleRunQuery db id p e₁ = handleRunQuery db id p e₂ ∧
      (handleRunQuery db id p e₁).1 = db ∧
      isErrResponse (handleRunQuery db id p e₁).2 = true) ∧
    handleRunQuery db id (.jobj { query := some "DELETE FROM pages" }) e₁ =
      (db, .err id "Only SELECT queries are supported") ∧
    handleRunQuery db id (.jobj { query := some "SELECT 1; SELECT 2" }) e₁ =
      (db, .err id "Only a single query is supported") ∧
    isOkResponse (handleRunQuery db id (.jobj { query := some "SELECT path FROM pages" })
        (.ok rowsArb)).2 = true := by
  refine ⟨?_, ?_, ?_, ?_⟩
  · intro hbad
    obtain ⟨msg, hmsg⟩ := sandboxRejectError_isSome_of_bad hbad
    rw [handleRunQuery_of_reject db id p e₁ hq hmsg,
      handleRunQuery_of_reject db id p e₂ hq hmsg]
    exact ⟨rfl, rfl, rfl⟩
  · exact handleRunQuery_of_reject db id _ e₁ rfl (by decide)
  · exact handleRunQuery_of_reject db id _ e₁ rfl (by decide)
  · rfl

/-- Witness for C5: the two rejected statements against a concrete store and
two different engine oracles, and the accepted SELECT. -/
theorem runQuerySandboxRejectionWitness :
    (handleRunQuery ⟨[], []⟩ 7 (.jobj { query := some "DELETE FROM pages" }) (.ok []) =
        handleRunQuery ⟨[], []⟩ 7 (.jobj { query := some "DELETE FROM pages" })
          (.error "boom") ∧
      (handleRunQuery ⟨[], []⟩ 7 (.jobj { query := some "DELETE FROM pages" }) (.ok [])).1 =
        ⟨[], []⟩ ∧
      isErrResponse (handleRunQuery ⟨[], []⟩ 7
        (.jobj { query := some "DELETE FROM pages" }) (.ok [])).2 = true) ∧
    handleRunQuery ⟨[], []⟩ 7 (.jobj { query := some "SELECT 1; SELECT 2" }) (.ok []) =
      (⟨[], []⟩, .err 7 "Only a single query is supported") ∧
    isOkResponse (handleRunQuery ⟨[], []⟩ 7
      (.jobj { query := some "SELECT path FROM pages" })
      (.ok [[("path", Cell.vtext "/pages/a")]])).2 = true := by
  have h := runQuerySandboxRejection ⟨[], []⟩ 7 (.jobj { query := some "DELETE FROM pages" })
    (.ok []) (.error "boom") "DELETE FROM pages" [[("path", Cell.vtext "/pages/a")]] rfl
  exact ⟨h.1 (Or.inr (by decide)), h.2.2.1, h.2.2.2⟩

lemma collect_align :
    ∀ (ys : List Row) (cols : List String) (urows : List (List Cell)),
      ys.foldl collectCappedStep (cols, urows.take (MAX_QUERY_ROWS + 1)) =
        ((ys.foldl collectAllStep (cols, urows)).1,
          (ys.foldl collectAllStep (cols, urows)).2.take (MAX_QUERY_ROWS + 1)) := by
  intro ys
  induction ys with
  | nil => intro cols urows; rfl
  | cons y ys ih =>
      intro cols urows
      rw [List.foldl_cons, List.foldl_cons]
      have hstep : collectCappedStep (cols, urows.take (MAX_QUERY_ROWS + 1)) y =
          ((collectAllStep (cols, urows) y).1,
            (collectAllStep (cols, urows) y).2.take (MAX_QUERY_ROWS + 1)) := by
        have hM : MAX_QUERY_ROWS = 200 := rfl
        simp only [collectCappedStep, collectAllStep]
        by_cases hle : urows.length ≤ MAX_QUERY_ROWS
        · have h1 : urows.take (MAX_QUERY_ROWS + 1) = urows :=
            List.take_of_length_le (by omega)
          rw [h1, if_pos hle, List.take_of_length_le (by simp [List.length_append]; omega)]
        · have hc : ¬ (urows.take (MAX_QUERY_ROWS + 1)).length ≤ MAX_QUERY_ROWS := by
            rw [List.length_take]; omega
          rw [if_neg hc, List.take_append_eq_append_take]
          have h4 : MAX_QUERY_ROWS + 1 - urows.length = 0 := by omega
          rw [h4]
          simp
      rw [hstep]
      exact ih _ _

lemma collectAll_go_length :
    ∀ (ys : List Row) (cols : List String) (urows : List (List Cell)),
      (ys.foldl collectAllStep (cols, urows)).2.length = urows.length + ys.length := by
  intro ys
  induction ys with
  | nil => intro cols urows; simp
  | cons y ys ih =>
      intro cols urows
      rw [List.foldl_cons]
      have := ih (if cols.isEmpty then rowKeys y else cols)
        (urows ++ [(if cols.isEmpty then rowKeys y else cols).map (rowGet y)])
      simp only [collectAllStep] at *
      rw [this]
      simp
      omega

lemma collectCapped_eq (yielded : List Row) :
    collectCapped yielded =
      ((collectAll yielded).1, (collectAll yielded).2.take (MAX_QUERY_ROWS + 1)) := by
  have := collect_align yielded [] []
  simpa [collectCapped, collectAll] using this

lemma collectAll_snd_length (yielded : List Row) :
    (collectAll yielded).2.length = yielded.length := by
  have := collectAll_go_length yielded [] []
  simpa [collectAll] using this

/-- C4: for every accepted read-only query, the worker returns the projected
rows truncated to the first `MAX_QUERY_ROWS` (all of them when at most 200
were yielded) with `truncated` set exactly when more than 200 rows were
yielded; the columns come from the first non-degenerate row and the uncapped
projection has one output row per yielded row. -/
theorem runQueryRowCap (db : DbState) (id : Int) (p : RawPayload) (q : String)
    (yielded : List Row)
    (hq : queryField p = some q)
    (hne : jsTrim q ≠ "")
    (hsemi : containsChar (stripTrailingSemicolons (jsTrim q)) ';' = false)
    (hsel : isSelectQuery (stripTrailingSemicolons (jsTrim q)) = true) :
    handleRunQuery db id p (.ok yielded) =
      (db, .ok id (.rquery ⟨(collectAll yielded).1,
        (collectAll yielded).2.take MAX_QUERY_ROWS,
        decide (MAX_QUERY_ROWS < yielded.length)⟩)) ∧
    ((collectAll yielded).2.take MAX_QUERY_ROWS).length = min yielded.length MAX_QUERY_ROWS ∧
    (collectAll yielded).2.length = yielded.length := by
  have hM : MAX_QUERY_ROWS = 200 := rfl
  have hlen := collectAll_snd_length yielded
  refine ⟨?_, ?_, hlen⟩
  · simp only [handleRunQuery, hq, Option.map_some', Option.getD_some]
    rw [if_neg hne, if_neg (by simp [hsemi]), if_neg (by simp [hsel])]
    rw [collectCapped_eq]
    dsimp only
    have htr : ((collectAll yielded).2.take (MAX_QUERY_ROWS + 1)).length > MAX_QUERY_ROWS ↔
        MAX_QUERY_ROWS < yielded.length := by
      rw [List.length_take, hlen]
      omega
    by_cases hgt : MAX_QUERY_ROWS < yielded.length
    · rw [if_pos (htr.mpr hgt)]
      have hrows : ((collectAll yielded).2.take (MAX_QUERY_ROWS + 1)).take MAX_QUERY_ROWS =
          (collectAll yielded).2.take MAX_QUERY_ROWS := by
        rw [List.take_take, Nat.min_eq_left (Nat.le_succ _)]
      rw [hrows]
      have hdec : decide (((collectAll yielded).2.take (MAX_QUERY_ROWS + 1)).length >
          MAX_QUERY_ROWS) = decide (MAX_QUERY_ROWS < yielded.length) := by
        rw [decide_eq_decide]
        exact htr
      rw [hdec]
    · rw [if_neg (fun h => hgt (htr.mp h))]
      have hsmall : yielded.length ≤ MAX_QUERY_ROWS := by omega
      have h1 : (collectAll yielded).2.take (MAX_QUERY_ROWS + 1) = (collectAll yielded).2 :=
        List.take_of_length_le (by omega)
      have h2 : (collectAll yielded).2.take MAX_QUERY_ROWS = (collectAll yielded).2 :=
        List.take_of_length_le (by omega)
      rw [h1, h2]
      have hdec : decide ((collectAll yielded).2.length > MAX_QUERY_ROWS) =
          decide (MAX_QUERY_ROWS < yielded.length) := by
        rw [decide_eq_decide, hlen]
      rw [hdec]
  · rw [List.length_take, hlen, Nat.min_comm]

set_option maxRecDepth 100000 in
/-- Witness for C4: a query yielding 250 rows returns exactly 200 rows with
truncated = true; one yielding 10 rows returns all 10 with truncated =
false. -/
theorem runQueryRowCapWitness :
    (handleRunQuery ⟨[], []⟩ 2 (.jobj { query := some "SELECT path FROM pages" })
        (.ok (List.replicate 250 []))).2 =
      .ok 2 (.rquery ⟨[], List.replicate 200 [], true⟩) ∧
    (handleRunQuery ⟨[], []⟩ 2 (.jobj { query := some "SELECT path FROM pages" })
        (.ok (List.replicate 10 []))).2 =
      .ok 2 (.rquery ⟨[], List.replicate 10 [], false⟩) := by
  constructor
  · rw [(runQueryRowCap ⟨[], []⟩ 2 (.jobj { query := some "SELECT path FROM pages" })
      "SELECT path FROM pages" (List.replicate 250 []) rfl (by decide) (by decide)
      (by decide)).1]
    decide
  · rw [(runQueryRowCap ⟨[], []⟩ 2 (.jobj { query := some "SELECT path FROM pages" })
      "SELECT path FROM pages" (List.replicate 10 []) rfl (by decide) (by decide)
      (by decide)).1]
    decide

/-! ## Round trip (C6) and idempotent link maintenance (C7) -/

/-- The lookup that `loadOne(path)` performs on the rows returned by
`loadNotes`. -/
def lookupNote (notes : List Note) (p : String) : Option Note :=
  notes.find? (fun n => n.path == p)

/-- A saveNote payload object carrying the given note fields. -/
def notePayload (path title body updatedAt : Option String) : RawPayload :=
  .jobj { path := path, title := title, body := body, updatedAt := updatedAt }

lemma extractAndValidateText_of_clean {s : String} (m : Nat) (ae : Bool)
    (ht : jsTrim s = s) (hn : s ≠ "" ∨ ae = true) (hl : s.length ≤ m) :
    extractAndValidateText (some s) m ae = some s := by
  simp only [extractAndValidateText, Option.getD_some]
  simp only [ht]
  have hc : (decide (s = "") && !ae) = false := by
    rcases hn with hn | hn
    · simp [hn]
    · simp [hn]
  rw [hc]
  simp only [Bool.false_eq_true, if_false]
  rw [if_neg (by omega)]

lemma mem_upsertPage_of_path {pages : List Note} {p t b u : String} {r : Note}
    (hr : r ∈ upsertPage pages p t b u) (hp : r.path = p) : r = ⟨p, t, b, u⟩ := by
  unfold upsertPage at hr
  by_cases hany : pages.any (fun x => x.path == p) = true
  · rw [if_pos hany] at hr
    obtain ⟨x, hx, hfx⟩ := List.mem_map.mp hr
    by_cases hxp : (x.path == p) = true
    · rw [if_pos hxp] at hfx
      have : x.path = p := by simpa using hxp
      rw [← hfx, this]
    · rw [if_neg hxp] at hfx
      rw [← hfx] at hp
      exact absurd (by simpa using hp) hxp
  · rw [if_neg hany] at hr
    rcases List.mem_append.mp hr with hmem | hnew
    · exfalso
      exact hany (List.any_eq_true.mpr ⟨r, hmem, by simpa using hp⟩)
    · simpa using hnew

lemma exists_mem_upsertPage (pages : List Note) (p t b u : String) :
    ∃ r ∈ upsertPage pages p t b u, r.path = p := by
  unfold upsertPage
  by_cases hany : pages.any (fun x => x.path == p) = true
  · rw [if_pos hany]
    obtain ⟨x, hx, hxp⟩ := List.any_eq_true.mp hany
    refine ⟨if (x.path == p) = true then ⟨x.path, t, b, u⟩ else x, List.mem_map.mpr ⟨x, hx, rfl⟩, ?_⟩
    rw [if_pos hxp]
    simpa using hxp
  · rw [if_neg hany]
    exact ⟨⟨p, t, b, u⟩, List.mem_append.mpr (Or.inr (by simp)), rfl⟩

lemma mem_insertSortedBy {le : Note → Note → Bool} {r a : Note} :
    ∀ {l : List Note}, a ∈ insertSortedBy le r l ↔ a = r ∨ a ∈ l := by
  intro l
  induction l with
  | nil => simp [insertSortedBy]
  | cons x xs ih =>
      unfold insertSortedBy
      by_cases hle : le r x = true
      · rw [if_pos hle]
        simp
      · rw [if_neg hle]
        simp only [List.mem_cons, ih]
        tauto

lemma mem_sortNotesBy {le : Note → Note → Bool} {a : Note} :
    ∀ {l : List Note}, a ∈ sortNotesBy le l ↔ a ∈ l := by
  intro l
  induction l with
  | nil => simp [sortNotesBy]
  | cons x xs ih =>
      show a ∈ insertSortedBy le x (sortNotesBy le xs) ↔ _
      rw [mem_insertSortedBy]
      simp only [List.mem_cons, ih]

lemma lookup_sorted_upsert (pages : List Note) (p t b u : String) :
    lookupNote (sortByPath (upsertPage pages p t b u)) p = some ⟨p, t, b, u⟩ := by
  have hsome : (List.find? (fun n => n.path == p)
      (sortByPath (upsertPage pages p t b u))).isSome := by
    rw [List.find?_isSome]
    obtain ⟨r, hr, hp⟩ := exists_mem_upsertPage pages p t b u
    exact ⟨r, mem_sortNotesBy.mpr hr, by simpa using hp⟩
  obtain ⟨r, hfind⟩ := Option.isSome_iff_exists.mp hsome
  have hpred := List.find?_some hfind
  have hmem := List.mem_of_find?_eq_some hfind
  have hr : r = ⟨p, t, b, u⟩ :=
    mem_upsertPage_of_path (mem_sortNotesBy.mp hmem) (by simpa using hpred)
  rw [lookupNote, hfind, hr]

/-- C6 counterexample: the document with path "p", title "T " (trailing
space), body "b" and updatedAt "2024" is valid — nonempty fields within the
length bounds — and `save` accepts it, but loading the stored document
returns title "T": the round trip does not return a document equal to the
input, because `save` persists trimmed copies of path, title and body. -/
theorem saveRoundTripCounterexample :
    (handleSaveNote ⟨[], []⟩ 1
        (notePayload (some "p") (some "T ") (some "b") (some "2024")) "now").2 =
      .ok 1 .rnull ∧
    lookupNote (sortByPath (handleSaveNote ⟨[], []⟩ 1
        (notePayload (some "p") (some "T ") (some "b") (some "2024")) "now").1.pages)
        "p" = some ⟨"p", "T", "b", "2024"⟩ ∧
    (⟨"p", "T", "b", "2024"⟩ : Note) ≠ ⟨"p", "T ", "b", "2024"⟩ := by
  refine ⟨by decide, by decide, by decide⟩

/-- C6 (amended): for every valid document whose path, title and body carry no
leading or trailing whitespace (trim-invariant fields, nonempty path and
title, within the 512/1024/50000 length bounds), save succeeds and the row
looked up under the document's path among the loadNotes rows is exactly the
saved document, with updatedAt defaulting to the current time when the caller
omits it.  In general save persists the trimmed fields, so an untrimmed
document round-trips to its trimmed form instead of itself. -/
theorem saveThenLoadRoundTrip (db : DbState) (id1 : Int) (now : String)
    (path title body : String) (upd : Option String)
    (hpt : jsTrim path = path) (hpn : path ≠ "") (hpl : path.length ≤ 512)
    (htt : jsTrim title = title) (htn : title ≠ "") (htl : title.length ≤ 1024)
    (hbt : jsTrim body = body) (hbl : body.length ≤ 50000) :
    (handleSaveNote db id1 (notePayload (some path) (some title) (some body) upd)
        now).2 = .ok id1 .rnull ∧
    lookupNote (sortByPath (handleSaveNote db id1
        (notePayload (some path) (some title) (some body) upd) now).1.pages) path =
      some ⟨path, title, body, upd.getD now⟩ := by
  have hp := extractAndValidateText_of_clean 512 false hpt (Or.inl hpn) hpl
  have ht := extractAndValidateText_of_clean 1024 false htt (Or.inl htn) htl
  have hb := extractAndValidateText_of_clean 50000 true hbt (Or.inr rfl) hbl
  constructor
  · simp only [handleSaveNote, notePayload, pathField, titleField, bodyField, hp, ht, hb]
  · simp only [handleSaveNote, notePayload, pathField, titleField, bodyField, updatedAtField,
      hp, ht, hb]
    exact lookup_sorted_upsert db.pages path title body (upd.getD now)

/-- Witness for C6 amended: saving a trim-clean document into a store that
already holds another row and looking its path up among the sorted rows
returns exactly the saved document, with the omitted updatedAt defaulted. -/
theorem saveThenLoadRoundTripWitness :
    (handleSaveNote ⟨[⟨"/pages/z", "Z", "", "2020"⟩], []⟩ 5
        (notePayload (some "/pages/a") (some "A") (some "hi [[B]]") none)
        "2025-01-01").2 = .ok 5 .rnull ∧
    lookupNote (sortByPath (handleSaveNote ⟨[⟨"/pages/z", "Z", "", "2020"⟩], []⟩ 5
        (notePayload (some "/pages/a") (some "A") (some "hi [[B]]") none)
        "2025-01-01").1.pages) "/pages/a" =
      some ⟨"/pages/a", "A", "hi [[B]]", "2025-01-01"⟩ :=
  saveThenLoadRoundTrip ⟨[⟨"/pages/z", "Z", "", "2020"⟩], []⟩ 5 "2025-01-01"
    "/pages/a" "A" "hi [[B]]" none
    (by decide) (by decide) (by decide) (by decide) (by decide) (by decide)
    (by decide) (by decide)

lemma insertLinkFold_append :
    ∀ (ls : List WikiLink) (T : List LinkRow) (src : String),
      ∃ extra, ls.foldl (insertLinkStep src) T = T ++ extra ∧
        ∀ r ∈ extra, r.sourcePath = src := by
  intro ls
  induction ls with
  | nil => intro T src; exact ⟨[], by simp, by simp⟩
  | cons l ls ih =>
      intro T src
      rw [List.foldl_cons]
      show ∃ extra, ls.foldl (insertLinkStep src) (insertLinkStep src T l) = T ++ extra ∧ _
      simp only [insertLinkStep]
      by_cases hc : T.contains (⟨src, l.targetPath, l.display⟩ : LinkRow) = true
      · rw [if_pos hc]
        exact ih T src
      · rw [if_neg hc]
        obtain ⟨extra, he, hall⟩ := ih (T ++ [⟨src, l.targetPath, l.display⟩]) src
        refine ⟨⟨src, l.targetPath, l.display⟩ :: extra, by rw [he, List.append_assoc]; rfl, ?_⟩
        intro r hr
        rcases List.mem_cons.mp hr with rfl | hr
        · rfl
        · exact hall r hr

lemma filter_replaceLinksForSource (links : List LinkRow) (src body : String) :
    (replaceLinksForSource links src body).filter (fun l => !(l.sourcePath == src)) =
      links.filter (fun l => !(l.sourcePath == src)) := by
  unfold replaceLinksForSource insertLinksForSource
  obtain ⟨extra, he, hall⟩ :=
    insertLinkFold_append (extractWikiLinksFromBody body)
      (links.filter (fun l => !(l.sourcePath == src))) src
  rw [he, List.filter_append]
  have h1 : (links.filter (fun l => !(l.sourcePath == src))).filter
      (fun l => !(l.sourcePath == src)) = links.filter (fun l => !(l.sourcePath == src)) := by
    apply List.filter_eq_self.mpr
    intro a ha
    exact (List.mem_filter.mp ha).2
  have h2 : extra.filter (fun l => !(l.sourcePath == src)) = [] := by
    apply List.filter_eq_nil_iff.mpr
    intro a ha
    simp [hall a ha]
  rw [h1, h2, List.append_nil]

lemma replaceLinksForSource_idem (links : List LinkRow) (src body : String) :
    replaceLinksForSource (replaceLinksForSource links src body) src body =
      replaceLinksForSource links src body := by
  conv_lhs => rw [replaceLinksForSource, filter_replaceLinksForSource]
  rfl

/-- C7: saving the same payload twice leaves exactly the same link rows as
saving it once — the second replaceLinksForSource deletes precisely the rows
the first inserted for that source and reinserts them, and an invalid payload
changes nothing either time. -/
theorem saveTwiceSameLinkRows (db : DbState) (payload : RawPayload) (id1 id2 : Int)
    (now1 now2 : String) :
    ((handleSaveNote (handleSaveNote db id1 payload now1).1 id2 payload now2).1).links =
      ((handleSaveNote db id1 payload now1).1).links := by
  cases hp : extractAndValidateText (pathField payload) 512 false with
  | none => simp [handleSaveNote, hp]
  | some path =>
      cases ht : extractAndValidateText (titleField payload) 1024 false with
      | none => simp [handleSaveNote, hp, ht]
      | some title =>
          cases hb : extractAndValidateText (bodyField payload) 50000 true with
          | none => simp [handleSaveNote, hp, ht, hb]
          | some body =>
              simp only [handleSaveNote, hp, ht, hb]
              exact replaceLinksForSource_idem db.links path body

/-! ## Exactly one response per non-cancelled request (C8) -/

lemma respId_handleLoadNotes (db : DbState) (id : Int) :
    respId (handleLoadNotes db id).2 = id := rfl

lemma respId_handleSaveNote (db : DbState) (id : Int) (p : RawPayload) (now : String) :
    respId (handleSaveNote db id p now).2 = id := by
  simp only [handleSaveNote]
  split <;> rfl

lemma respId_handleDeleteNote (db : DbState) (id : Int) (p : RawPayload) :
    respId (handleDeleteNote db id p).2 = id := by
  simp only [handleDeleteNote]
  split <;> rfl

lemma respId_handleBulkSaveNotes (db : DbState) (id : Int) (p : RawPayload) (now : String)
    (f0 f1 : Option String) :
    respId (handleBulkSaveNotes db id p now f0 f1).2 = id := by
  simp only [handleBulkSaveNotes]
  split
  · rfl
  · split
    · split <;> rfl
    · rfl

lemma respId_handleSearchNotes (db : DbState) (id : Int) (p : RawPayload)
    (e : Except String (List SearchRow)) :
    respId (handleSearchNotes db id p e).2 = id := by
  simp only [handleSearchNotes]
  split
  · rfl
  · split <;> rfl

lemma respId_handleListBacklinks (db : DbState) (id : Int) (p : RawPayload) :
    respId (handleListBacklinks db id p).2 = id := by
  simp only [handleListBacklinks]
  split <;> rfl

lemma respId_handleRunQuery (db : DbState) (id : Int) (p : RawPayload)
    (e : Except String (List Row)) :
    respId (handleRunQuery db id p e).2 = id := by
  simp only [handleRunQuery]
  split
  · rfl
  · split
    · rfl
    · split
      · rfl
      · split <;> rfl

/-- Every branch of the post-await dispatch is one `postIfNotCancelled` call
for the request's own id, on a state sharing the inbound cancelled set and
outbox. -/
lemma finishPhase_eq_post (s : WorkerState) (id : Int) (ty : String) (p : RawPayload)
    (env : Env) :
    ∃ s' r, finishPhase s id ty p env = postIfNotCancelled s' id r ∧
      s'.cancelledRequestIds = s.cancelledRequestIds ∧
      s'.outbox = s.outbox ∧ respId r = id := by
  unfold finishPhase
  by_cases h0 : s.dbAvailable = false
  · rw [if_pos h0]
    exact ⟨s, _, rfl, rfl, rfl, rfl⟩
  rw [if_neg h0]
  by_cases h1 : ty = "loadNotes"
  · rw [if_pos h1]
    exact ⟨_, _, rfl, rfl, rfl, respId_handleLoadNotes s.db id⟩
  rw [if_neg h1]
  by_cases h2 : ty = "saveNote"
  · rw [if_pos h2]
    exact ⟨_, _, rfl, rfl, rfl, respId_handleSaveNote s.db id p env.now⟩
  rw [if_neg h2]
  by_cases h3 : ty = "deleteNote"
  · rw [if_pos h3]
    exact ⟨_, _, rfl, rfl, rfl, respId_handleDeleteNote s.db id p⟩
  rw [if_neg h3]
  by_cases h4 : ty = "bulkSaveNotes"
  · rw [if_pos h4]
    exact ⟨_, _, rfl, rfl, rfl, respId_handleBulkSaveNotes s.db id p env.now env.fault0 env.fault1⟩
  rw [if_neg h4]
  by_cases h5 : ty = "searchNotes"
  · rw [if_pos h5]
    exact ⟨_, _, rfl, rfl, rfl, respId_handleSearchNotes s.db id p env.searchOutcome⟩
  rw [if_neg h5]
  by_cases h6 : ty = "listBacklinks"
  · rw [if_pos h6]
    exact ⟨_, _, rfl, rfl, rfl, respId_handleListBacklinks s.db id p⟩
  rw [if_neg h6]
  by_cases h7 : ty = "runQuery"
  · rw [if_pos h7]
    exact ⟨_, _, rfl, rfl, rfl, respId_handleRunQuery s.db id p env.queryOutcome⟩
  rw [if_neg h7]
  exact ⟨s, _, rfl, rfl, rfl, rfl⟩

lemma postIfNotCancelled_of_not_cancelled {s : WorkerState} {id : Int} (r : Response)
    (h : s.cancelledRequestIds.contains id = false) :
    postIfNotCancelled s id r = { s with outbox := s.outbox ++ [r] } := by
  have h' : id ∉ s.cancelledRequestIds := by simpa using h
  simp [postIfNotCancelled, consumeCancelledRequest, h']

lemma postIfNotCancelled_of_cancelled {s : WorkerState} {id : Int} (r : Response)
    (h : s.cancelledRequestIds.contains id = true) :
    postIfNotCancelled s id r =
      { s with cancelledRequestIds := s.cancelledRequestIds.erase id } := by
  have h' : id ∈ s.cancelledRequestIds := by simpa using h
  simp [postIfNotCancelled, consumeCancelledRequest, h']

/-- C8: a well-formed request envelope — numeric id, string tag other than
cancelRequest — whose id is not in the cancelled set produces exactly one
response envelope, appended to the outbox, carrying the same id, whether the
dispatched operation succeeds, fails, hits an unavailable database, or has an
unknown tag. -/
theorem nonCancelledRequestOneResponse (s : WorkerState) (m : RawMessage) (env : Env)
    (id : Int) (ty : String)
    (hid : m.id = some id) (hty : m.type = some ty) (hnc : ty ≠ "cancelRequest")
    (hcan : isRequestCancelled s.cancelledRequestIds id = false) :
    (onmessage s m env).outbox.length = s.outbox.length + 1 ∧
    (onmessage s m env).outbox.take s.outbox.length = s.outbox ∧
    ((onmessage s m env).outbox.drop s.outbox.length).map respId = [id] := by
  rcases m with ⟨mid, mty, mp⟩
  simp only at hid hty
  subst hid hty
  have harr : arriveCheck s id = (s, true) := by
    simp [arriveCheck, hcan]
  obtain ⟨s', r, heq, hc, ho, hr⟩ := finishPhase_eq_post s id ty mp env
  have hmain : onmessage s ⟨some id, some ty, mp⟩ env = finishPhase s id ty mp env := by
    simp only [onmessage, if_neg hnc, harr]
  rw [hmain, heq, postIfNotCancelled_of_not_cancelled r (by rw [hc]; exact hcan)]
  refine ⟨?_, ?_, ?_⟩
  · simp [ho]
  · rw [ho] at *
    exact List.take_left s.outbox [r]
  · rw [ho] at *
    rw [show (s.outbox ++ [r]).drop s.outbox.length = [r] from List.drop_left s.outbox [r]]
    simp [hr]

/-- Witness for C8: a loadNotes request with id 7 against the fresh worker
appends exactly one envelope with id 7. -/
theorem nonCancelledRequestOneResponseWitness :
    (onmessage ⟨[], true, ⟨[], []⟩, []⟩ ⟨some 7, some "loadNotes", .jnull⟩
        ⟨.ok [], .ok [], none, none, "2025"⟩).outbox.length =
      ([] : List Response).length + 1 ∧
    (onmessage ⟨[], true, ⟨[], []⟩, []⟩ ⟨some 7, some "loadNotes", .jnull⟩
        ⟨.ok [], .ok [], none, none, "2025"⟩).outbox.take
        ([] : List Response).length = ([] : List Response) ∧
    ((onmessage ⟨[], true, ⟨[], []⟩, []⟩ ⟨some 7, some "loadNotes", .jnull⟩
        ⟨.ok [], .ok [], none, none, "2025"⟩).outbox.drop
        ([] : List Response).length).map respId = [7] :=
  nonCancelledRequestOneResponse ⟨[], true, ⟨[], []⟩, []⟩
    ⟨some 7, some "loadNotes", .jnull⟩ ⟨.ok [], .ok [], none, none, "2025"⟩ 7 "loadNotes"
    rfl rfl (by decide) rfl

/-! ## Cancellation suppression (C2): lemmas about the cancelled set and the
two checkpoints, then the trace theorem. -/

lemma mem_setAdd_iff {l : List Int} {x y : Int} : y ∈ setAdd l x ↔ y = x ∨ y ∈ l := by
  unfold setAdd
  by_cases h : l.contains x = true
  · rw [if_pos h]
    have hx : x ∈ l := by simpa using h
    constructor
    · exact fun hy => Or.inr hy
    · rintro (rfl | hy)
      · exact hx
      · exact hy
  · rw [if_neg h]
    simp

lemma mem_setAdd_self {l : List Int} {x : Int} : x ∈ setAdd l x :=
  mem_setAdd_iff.mpr (Or.inl rfl)

lemma count_setAdd_le_one {l : List Int} {x N : Int}
    (h : List.count N l ≤ 1) : List.count N (setAdd l x) ≤ 1 := by
  unfold setAdd
  by_cases hc : l.contains x = true
  · rw [if_pos hc]; exact h
  · rw [if_neg hc]
    by_cases hx : x = N
    · subst hx
      have hnot : x ∉ l := by simpa using hc
      have h0 : List.count x l = 0 := List.count_eq_zero.mpr hnot
      simp [List.count_cons, h0]
    · simp [List.count_cons, hx]
      omega

lemma mem_markRequestCancelled_of_mem {c : List Int} {t : Option Int} {N : Int}
    (h : N ∈ c) : N ∈ markRequestCancelled c t := by
  unfold markRequestCancelled
  cases t with
  | none => exact h
  | some x =>
      dsimp only
      by_cases hx : x ≤ 0
      · rw [if_pos hx]; exact h
      · rw [if_neg hx]; exact mem_setAdd_iff.mpr (Or.inr h)

lemma mem_markRequestCancelled_self {c : List Int} {N : Int} (h : 0 < N) :
    N ∈ markRequestCancelled c (some N) := by
  unfold markRequestCancelled
  dsimp only
  rw [if_neg (by omega)]
  exact mem_setAdd_self

lemma not_mem_markRequestCancelled {c : List Int} {t : Option Int} {N : Int}
    (hmem : N ∉ c) (ht : t ≠ some N) : N ∉ markRequestCancelled c t := by
  unfold markRequestCancelled
  cases t with
  | none => exact hmem
  | some x =>
      dsimp only
      by_cases hx : x ≤ 0
      · rw [if_pos hx]; exact hmem
      · rw [if_neg hx]
        intro hin
        rcases mem_setAdd_iff.mp hin with rfl | hin
        · exact ht rfl
        · exact hmem hin

lemma count_markRequestCancelled_le_one {c : List Int} {t : Option Int} {N : Int}
    (h : List.count N c ≤ 1) : List.count N (markRequestCancelled c t) ≤ 1 := by
  unfold markRequestCancelled
  cases t with
  | none => exact h
  | some x =>
      dsimp only
      by_cases hx : x ≤ 0
      · rw [if_pos hx]; exact h
      · rw [if_neg hx]; exact count_setAdd_le_one h

lemma count_erase_le {l : List Int} (N x : Int) :
    List.count N (l.erase x) ≤ List.count N l :=
  (List.erase_sublist x l).count_le N

lemma not_mem_erase_of_not_mem {l : List Int} {N x : Int} (h : N ∉ l) : N ∉ l.erase x :=
  fun hin => h (List.mem_of_mem_erase hin)

/-- The arrival checkpoint either consumes a cancelled id and stops, or leaves
the state untouched and proceeds. -/
lemma arriveCheck_spec (s : WorkerState) (id : Int) :
    (isRequestCancelled s.cancelledRequestIds id = true ∧
      (arriveCheck s id).1 =
        { s with cancelledRequestIds := s.cancelledRequestIds.erase id }) ∨
    (isRequestCancelled s.cancelledRequestIds id = false ∧ (arriveCheck s id).1 = s) := by
  by_cases h : isRequestCancelled s.cancelledRequestIds id = true
  · left
    have h' : id ∈ s.cancelledRequestIds := by simpa [isRequestCancelled] using h
    exact ⟨h, by simp [arriveCheck, isRequestCancelled, consumeCancelledRequest, h']⟩
  · right
    have hf : isRequestCancelled s.cancelledRequestIds id = false := by
      simpa using h
    have h' : id ∉ s.cancelledRequestIds := by simpa [isRequestCancelled] using hf
    exact ⟨hf, by simp [arriveCheck, isRequestCancelled, consumeCancelledRequest, h']⟩

/-- The send checkpoint either suppresses the response of a cancelled id
(consuming it) or appends exactly one envelope carrying the request id. -/
lemma finishPhase_spec (s : WorkerState) (id : Int) (ty : String) (p : RawPayload)
    (env : Env) :
    (isRequestCancelled s.cancelledRequestIds id = true ∧
      (finishPhase s id ty p env).outbox = s.outbox ∧
      (finishPhase s id ty p env).cancelledRequestIds = s.cancelledRequestIds.erase id) ∨
    (isRequestCancelled s.cancelledRequestIds id = false ∧
      (∃ r, (finishPhase s id ty p env).outbox = s.outbox ++ [r] ∧ respId r = id) ∧
      (finishPhase s id ty p env).cancelledRequestIds = s.cancelledRequestIds) := by
  obtain ⟨s', r, heq, hc, ho, hr⟩ := finishPhase_eq_post s id ty p env
  by_cases h : isRequestCancelled s.cancelledRequestIds id = true
  · left
    have hc2 : s'.cancelledRequestIds.contains id = true := by rw [hc]; exact h
    have hpost := postIfNotCancelled_of_cancelled r hc2
    rw [heq, hpost]
    exact ⟨h, ho, by rw [hc]⟩
  · right
    have hf : isRequestCancelled s.cancelledRequestIds id = false := by simpa using h
    have hc2 : s'.cancelledRequestIds.contains id = false := by rw [hc]; exact hf
    have hpost := postIfNotCancelled_of_not_cancelled r hc2
    rw [heq, hpost]
    exact ⟨hf, ⟨r, by rw [ho], hr⟩, hc⟩

lemma noResponseFor_iff {N : Int} {s : WorkerState} :
    noResponseFor N s = true ↔ ∀ r ∈ s.outbox, respId r ≠ N := by
  simp [noResponseFor]

lemma noResponseFor_append {N : Int} {s s' : WorkerState} {r : Response}
    (ho : s'.outbox = s.outbox ++ [r]) (hclean : noResponseFor N s = true)
    (hr : respId r ≠ N) : noResponseFor N s' = true := by
  rw [noResponseFor_iff] at *
  rw [ho]
  intro x hx
  rcases List.mem_append.mp hx with hx | hx
  · exact hclean x hx
  · rcases List.mem_singleton.mp hx with rfl
    exact hr

lemma isFinishFor_finish_self {N : Int} {ty : String} {p : RawPayload} {env : Env} :
    isFinishFor N (.finish N ty p env) = true := by
  simp [isFinishFor]

/-- Once a cancel notice for `N` has been recorded, no later event of a
well-behaved schedule (where a finish phase for `N` only occurs if its arrival
phase was not suppressed, and at most one finish phase for `N` exists) can put
an envelope with id `N` into the outbox. -/
lemma wfSchedule_cons (N : Int) (s : WorkerState) (e : WEvent) (rest : List WEvent) :
    wfSchedule N s (e :: rest) =
      (wfGuard N s e rest && wfSchedule N (stepEvent s e) rest) :=
  rfl

lemma noResponseFor_congr {N : Int} {s s' : WorkerState} (h : s'.outbox = s.outbox) :
    noResponseFor N s' = noResponseFor N s := by
  simp [noResponseFor, h]

/-- Once a cancel notice for `N` has been recorded, no later event of a
well-behaved schedule (where a finish phase for `N` only occurs if its arrival
phase was not suppressed, and at most one finish phase for `N` exists) can put
an envelope with id `N` into the outbox. -/
lemma run_no_response (N : Int) :
    ∀ (tr : List WEvent) (s : WorkerState),
      noResponseFor N s = true →
      (N ∈ s.cancelledRequestIds ∨ ∀ e ∈ tr, isFinishFor N e = false) →
      wfSchedule N s tr = true →
      (tr.filter (isFinishFor N)).length ≤ 1 →
      noResponseFor N (runEvents s tr) = true := by
  intro tr
  induction tr with
  | nil => intro s hclean _ _ _; exact hclean
  | cons e rest ih =>
      intro s hclean hdisj hwf hcount
      rw [wfSchedule_cons, Bool.and_eq_true] at hwf
      obtain ⟨hguard, hwf'⟩ := hwf
      rw [runEvents, List.foldl_cons]
      show noResponseFor N (runEvents (stepEvent s e) rest) = true
      cases e with
      | badMsg =>
          refine ih s hclean ?_ hwf' (by simpa [isFinishFor] using hcount)
          rcases hdisj with h | h
          · exact Or.inl h
          · exact Or.inr fun x hx => h x (List.mem_cons_of_mem _ hx)
      | cancelMsg p =>
          refine ih _ hclean ?_ hwf' (by simpa [isFinishFor] using hcount)
          rcases hdisj with h | h
          · exact Or.inl (mem_markRequestCancelled_of_mem h)
          · exact Or.inr fun x hx => h x (List.mem_cons_of_mem _ hx)
      | arrive id =>
          have hcount' : (rest.filter (isFinishFor N)).length ≤ 1 := by
            simpa [isFinishFor] using hcount
          have hstep : stepEvent s (.arrive id) = (arriveCheck s id).1 := rfl
          rcases arriveCheck_spec s id with ⟨hcanc, hstate⟩ | ⟨hcanc, hstate⟩
          · by_cases hid : id = N
            · subst hid
              have hguard' : ∀ x ∈ rest, isFinishFor id x = false := by
                simp only [wfGuard, beq_self_eq_true, Bool.true_and, if_pos hcanc,
                  List.all_eq_true] at hguard
                intro x hx
                simpa using hguard x hx
              refine ih _ ?_ (Or.inr hguard') hwf' hcount'
              rw [hstep, hstate]
              exact hclean
            · refine ih _ ?_ ?_ hwf' hcount'
              · rw [hstep, hstate]
                exact hclean
              · rcases hdisj with h | h
                · left
                  rw [hstep, hstate]
                  show N ∈ s.cancelledRequestIds.erase id
                  exact (List.mem_erase_of_ne (fun hEq => hid hEq.symm)).mpr h
                · exact Or.inr fun x hx => h x (List.mem_cons_of_mem _ hx)
          · refine ih _ ?_ ?_ hwf' hcount'
            · rw [hstep, hstate]
              exact hclean
            · rw [hstep, hstate]
              rcases hdisj with h | h
              · by_cases hid : id = N
                · subst hid
                  have hmemb : isRequestCancelled s.cancelledRequestIds id = true := by
                    simpa [isRequestCancelled] using h
                  exact absurd (hmemb.symm.trans hcanc) (by decide)
                · exact Or.inl h
              · exact Or.inr fun x hx => h x (List.mem_cons_of_mem _ hx)
      | finish id ty p env =>
          have hstep : stepEvent s (.finish id ty p env) = finishPhase s id ty p env := rfl
          by_cases hid : id = N
          · subst hid
            have hmem : id ∈ s.cancelledRequestIds := by
              rcases hdisj with h | h
              · exact h
              · exact absurd (h _ (List.mem_cons_self _ _))
                  (by simp [isFinishFor_finish_self])
            rcases finishPhase_spec s id ty p env with ⟨_, ho, hcset⟩ | ⟨hcanc, _, _⟩
            · have hnofin : ∀ x ∈ rest, isFinishFor id x = false := by
                rw [List.filter_cons_of_pos isFinishFor_finish_self] at hcount
                simp only [List.length_cons] at hcount
                have hz : (rest.filter (isFinishFor id)).length = 0 := by omega
                have hnil := List.length_eq_zero.mp hz
                intro x hx
                by_contra hxf
                have hmemf : x ∈ rest.filter (isFinishFor id) :=
                  List.mem_filter.mpr ⟨hx, by simpa using hxf⟩
                rw [hnil] at hmemf
                cases hmemf
              refine ih _ ?_ (Or.inr hnofin) hwf' ?_
              · rw [hstep, noResponseFor_congr ho]
                exact hclean
              · have hfe : rest.filter (isFinishFor id) = [] :=
                  List.filter_eq_nil_iff.mpr (fun a ha => by simp [hnofin a ha])
                simp [hfe]
            · have hmemb : isRequestCancelled s.cancelledRequestIds id = true := by
                simpa [isRequestCancelled] using hmem
              exact absurd (hmemb.symm.trans hcanc) (by decide)
          · have hfinneg : isFinishFor N (.finish id ty p env) = false := by
              simp [isFinishFor, hid]
            have hcount' : (rest.filter (isFinishFor N)).length ≤ 1 := by
              rwa [List.filter_cons_of_neg (by simp [hfinneg])] at hcount
            rcases finishPhase_spec s id ty p env with ⟨_, ho, hcset⟩ | ⟨_, ⟨r, ho, hr⟩, hcset⟩
            · refine ih _ ?_ ?_ hwf' hcount'
              · rw [hstep, noResponseFor_congr ho]
                exact hclean
              · rcases hdisj with h | h
                · left
                  rw [hstep, hcset]
                  exact (List.mem_erase_of_ne (fun hEq => hid hEq.symm)).mpr h
                · exact Or.inr fun x hx => h x (List.mem_cons_of_mem _ hx)
            · refine ih _ ?_ ?_ hwf' hcount'
              · exact noResponseFor_append (by rw [hstep]; exact ho) hclean
                  (by rw [hr]; exact hid)
              · rcases hdisj with h | h
                · left
                  rw [hstep, hcset]
                  exact h
                · exact Or.inr fun x hx => h x (List.mem_cons_of_mem _ hx)

/-- A cancelled id with a single occurrence in the set is removed by its first
checkpoint and, absent further cancel notices naming it, never returns. -/
lemma run_consumed (N : Int) :
    ∀ (tr : List WEvent) (s : WorkerState),
      (∀ e ∈ tr, isCancelFor N e = false) →
      ((N ∈ s.cancelledRequestIds ∧ List.count N s.cancelledRequestIds ≤ 1 ∧
          ∃ e ∈ tr, touchesId N e = true) ∨ N ∉ s.cancelledRequestIds) →
      N ∉ (runEvents s tr).cancelledRequestIds := by
  intro tr
  induction tr with
  | nil =>
      intro s _ hdisj
      rcases hdisj with ⟨_, _, ⟨e, he, _⟩⟩ | h
      · cases he
      · exact h
  | cons e rest ih =>
      intro s hnocancel hdisj
      have hnocancel' : ∀ x ∈ rest, isCancelFor N x = false :=
        fun x hx => hnocancel x (List.mem_cons_of_mem _ hx)
      have hecancel : isCancelFor N e = false := hnocancel e (List.mem_cons_self _ _)
      rw [runEvents, List.foldl_cons]
      show N ∉ (runEvents (stepEvent s e) rest).cancelledRequestIds
      have hout : ∀ s' : WorkerState, N ∉ s'.cancelledRequestIds →
          N ∉ (stepEvent s' e).cancelledRequestIds := by
        intro s' hnot
        cases e with
        | badMsg => exact hnot
        | cancelMsg p =>
            refine not_mem_markRequestCancelled hnot ?_
            intro habs
            simp [isCancelFor, habs] at hecancel
        | arrive id =>
            rcases arriveCheck_spec s' id with ⟨_, hstate⟩ | ⟨_, hstate⟩
            · rw [show stepEvent s' (.arrive id) = (arriveCheck s' id).1 from rfl, hstate]
              exact not_mem_erase_of_not_mem hnot
            · rw [show stepEvent s' (.arrive id) = (arriveCheck s' id).1 from rfl, hstate]
              exact hnot
        | finish id ty p env =>
            rcases finishPhase_spec s' id ty p env with ⟨_, _, hcset⟩ | ⟨_, _, hcset⟩
            · rw [show stepEvent s' (.finish id ty p env) = finishPhase s' id ty p env
                from rfl, hcset]
              exact not_mem_erase_of_not_mem hnot
            · rw [show stepEvent s' (.finish id ty p env) = finishPhase s' id ty p env
                from rfl, hcset]
              exact hnot
      rcases hdisj with ⟨hmem, hcount, ⟨e0, he0, htouch⟩⟩ | hnot
      · by_cases htouchE : touchesId N e = true
        · -- the first checkpoint for N: it consumes the single occurrence
          have hone : List.count N s.cancelledRequestIds = 1 :=
            Nat.le_antisymm hcount (List.count_pos_iff.mpr hmem)
          have hgone : N ∉ (stepEvent s e).cancelledRequestIds := by
            cases e with
            | badMsg => simp [touchesId, isArriveFor, isFinishFor] at htouchE
            | cancelMsg p => simp [touchesId, isArriveFor, isFinishFor] at htouchE
            | arrive id =>
                have hid : id = N := by
                  simpa [touchesId, isArriveFor, isFinishFor] using htouchE
                subst hid
                rcases arriveCheck_spec s id with ⟨_, hstate⟩ | ⟨hcanc, _⟩
                · rw [show stepEvent s (.arrive id) = (arriveCheck s id).1 from rfl, hstate]
                  show id ∉ s.cancelledRequestIds.erase id
                  intro habs
                  have hsub := List.count_erase_self id s.cancelledRequestIds
                  have hpos := List.count_pos_iff.mpr habs
                  omega
                · have hmemb : isRequestCancelled s.cancelledRequestIds id = true := by
                    simpa [isRequestCancelled] using hmem
                  exact absurd (hmemb.symm.trans hcanc) (by decide)
            | finish id ty p env =>
                have hid : id = N := by
                  simpa [touchesId, isArriveFor, isFinishFor] using htouchE
                subst hid
                rcases finishPhase_spec s id ty p env with ⟨_, _, hcset⟩ | ⟨hcanc, _, _⟩
                · rw [show stepEvent s (.finish id ty p env) = finishPhase s id ty p env
                    from rfl, hcset]
                  intro habs
                  have hsub := List.count_erase_self id s.cancelledRequestIds
                  have hpos := List.count_pos_iff.mpr habs
                  omega
                · have hmemb : isRequestCancelled s.cancelledRequestIds id = true := by
                    simpa [isRequestCancelled] using hmem
                  exact absurd (hmemb.symm.trans hcanc) (by decide)
          exact ih (stepEvent s e) hnocancel' (Or.inr hgone)
        · -- N survives this unrelated step with its count intact
          have hkeep : N ∈ (stepEvent s e).cancelledRequestIds ∧
              List.count N (stepEvent s e).cancelledRequestIds ≤ 1 := by
            cases e with
            | badMsg => exact ⟨hmem, hcount⟩
            | cancelMsg p =>
                refine ⟨mem_markRequestCancelled_of_mem hmem, ?_⟩
                exact count_markRequestCancelled_le_one hcount
            | arrive id =>
                have hid : ¬ id = N := by
                  intro habs
                  subst habs
                  simp [touchesId, isArriveFor] at htouchE
                rcases arriveCheck_spec s id with ⟨_, hstate⟩ | ⟨_, hstate⟩
                · rw [show stepEvent s (.arrive id) = (arriveCheck s id).1 from rfl, hstate]
                  refine ⟨(List.mem_erase_of_ne (fun h => hid h.symm)).mpr hmem, ?_⟩
                  · exact le_trans (count_erase_le N id) hcount
                · rw [show stepEvent s (.arrive id) = (arriveCheck s id).1 from rfl, hstate]
                  exact ⟨hmem, hcount⟩
            | finish id ty p env =>
                have hid : ¬ id = N := by
                  intro habs
                  subst habs
                  simp [touchesId, isFinishFor] at htouchE
                rcases finishPhase_spec s id ty p env with ⟨_, _, hcset⟩ | ⟨_, _, hcset⟩
                · rw [show stepEvent s (.finish id ty p env) = finishPhase s id ty p env
                    from rfl, hcset]
                  refine ⟨(List.mem_erase_of_ne (fun h => hid h.symm)).mpr hmem, ?_⟩
                  exact le_trans (count_erase_le N id) hcount
                · rw [show stepEvent s (.finish id ty p env) = finishPhase s id ty p env
                    from rfl, hcset]
                  exact ⟨hmem, hcount⟩
          have he0rest : e0 ∈ rest := by
            rcases List.mem_cons.mp he0 with rfl | h
            · exact absurd htouch htouchE
            · exact h
          exact ih (stepEvent s e) hnocancel'
            (Or.inl ⟨hkeep.1, hkeep.2, e0, he0rest, htouch⟩)
      · exact ih (stepEvent s e) hnocancel' (Or.inr (hout s hnot))

lemma count_le_one_step (N : Int) (s : WorkerState) (e : WEvent)
    (h : List.count N s.cancelledRequestIds ≤ 1) :
    List.count N (stepEvent s e).cancelledRequestIds ≤ 1 := by
  cases e with
  | badMsg => exact h
  | cancelMsg p => exact count_markRequestCancelled_le_one h
  | arrive id =>
      rcases arriveCheck_spec s id with ⟨_, hstate⟩ | ⟨_, hstate⟩
      · rw [show stepEvent s (.arrive id) = (arriveCheck s id).1 from rfl, hstate]
        exact le_trans (count_erase_le N id) h
      · rw [show stepEvent s (.arrive id) = (arriveCheck s id).1 from rfl, hstate]
        exact h
  | finish id ty p env =>
      rcases finishPhase_spec s id ty p env with ⟨_, _, hcset⟩ | ⟨_, _, hcset⟩
      · have : (stepEvent s (.finish id ty p env)).cancelledRequestIds =
            s.cancelledRequestIds.erase id := hcset
        rw [this]
        exact le_trans (count_erase_le N id) h
      · have : (stepEvent s (.finish id ty p env)).cancelledRequestIds =
            s.cancelledRequestIds := hcset
        rw [this]
        exact h

lemma count_le_one_run (N : Int) :
    ∀ (tr : List WEvent) (s : WorkerState),
      List.count N s.cancelledRequestIds ≤ 1 →
      List.count N (runEvents s tr).cancelledRequestIds ≤ 1 := by
  intro tr
  induction tr with
  | nil => intro s h; exact h
  | cons e rest ih =>
      intro s h
      rw [runEvents, List.foldl_cons]
      exact ih _ (count_le_one_step N s e h)

lemma run_clean_of_no_finish (N : Int) :
    ∀ (tr : List WEvent) (s : WorkerState),
      noResponseFor N s = true →
      (∀ e ∈ tr, isFinishFor N e = false) →
      noResponseFor N (runEvents s tr) = true := by
  intro tr
  induction tr with
  | nil => intro s h _; exact h
  | cons e rest ih =>
      intro s hclean hnf
      rw [runEvents, List.foldl_cons]
      refine ih _ ?_ (fun x hx => hnf x (List.mem_cons_of_mem _ hx))
      cases e with
      | badMsg => exact hclean
      | cancelMsg p => exact hclean
      | arrive id =>
          rcases arriveCheck_spec s id with ⟨_, hstate⟩ | ⟨_, hstate⟩ <;>
            · rw [show stepEvent s (.arrive id) = (arriveCheck s id).1 from rfl, hstate]
              exact hclean
      | finish id ty p env =>
          have hid : ¬ id = N := by
            have hx := hnf _ (List.mem_cons_self _ _)
            intro habs
            subst habs
            simp [isFinishFor_finish_self] at hx
          rcases finishPhase_spec s id ty p env with ⟨_, ho, _⟩ | ⟨_, ⟨r, ho, hr⟩, _⟩
          · rw [show stepEvent s (.finish id ty p env) = finishPhase s id ty p env from rfl,
              noResponseFor_congr ho]
            exact hclean
          · exact noResponseFor_append
              (by rw [show stepEvent s (.finish id ty p env) = finishPhase s id ty p env
                  from rfl]; exact ho)
              hclean (by rw [hr]; exact hid)

/-- C2: if a cancel notice naming request id `N` (a positive id, as the
protocol requires) is processed before the response for `N` would be sent —
the single finish phase for `N` lies after the cancel in the schedule, and a
suppressed arrival schedules no finish phase — then no response envelope with
id `N` is ever emitted, regardless of how the dispatched operation went, and
the cancelled id is consumed by its first checkpoint: once some checkpoint of
`N` has run, `N` is no longer in the cancelled set. -/
theorem cancellationSuppression
    (s0 : WorkerState) (tr1 tr2 : List WEvent) (N : Int) (cp : RawPayload)
    (hpos : 0 < N)
    (htarget : targetIdField cp = some N)
    (hclean : noResponseFor N s0 = true)
    (hfresh : N ∉ s0.cancelledRequestIds)
    (hnotyet : ∀ e ∈ tr1, isFinishFor N e = false)
    (honce : (tr2.filter (isFinishFor N)).length ≤ 1)
    (hwf : wfSchedule N (runEvents s0 (tr1 ++ [WEvent.cancelMsg cp])) tr2 = true)
    (hnocancel : ∀ e ∈ tr2, isCancelFor N e = false)
    (huse : ∃ e ∈ tr2, touchesId N e = true) :
    noResponseFor N (runEvents s0 (tr1 ++ WEvent.cancelMsg cp :: tr2)) = true ∧
    N ∉ (runEvents s0 (tr1 ++ WEvent.cancelMsg cp :: tr2)).cancelledRequestIds := by
  have hsplit : tr1 ++ WEvent.cancelMsg cp :: tr2 =
      (tr1 ++ [WEvent.cancelMsg cp]) ++ tr2 :=
    (List.append_assoc tr1 [WEvent.cancelMsg cp] tr2).symm
  have hrun : runEvents s0 (tr1 ++ WEvent.cancelMsg cp :: tr2) =
      runEvents (runEvents s0 (tr1 ++ [WEvent.cancelMsg cp])) tr2 := by
    rw [hsplit]
    simp [runEvents, List.foldl_append]
  have hs1eq : runEvents s0 (tr1 ++ [WEvent.cancelMsg cp]) =
      stepEvent (runEvents s0 tr1) (.cancelMsg cp) := by
    simp [runEvents, List.foldl_append]
  have hs1clean : noResponseFor N (runEvents s0 (tr1 ++ [WEvent.cancelMsg cp])) = true := by
    refine run_clean_of_no_finish N (tr1 ++ [WEvent.cancelMsg cp]) s0 hclean ?_
    intro e he
    rcases List.mem_append.mp he with h | h
    · exact hnotyet e h
    · rcases List.mem_singleton.mp h with rfl
      rfl
  have hs1mem : N ∈ (runEvents s0 (tr1 ++ [WEvent.cancelMsg cp])).cancelledRequestIds := by
    rw [hs1eq]
    show N ∈ markRequestCancelled (runEvents s0 tr1).cancelledRequestIds (targetIdField cp)
    rw [htarget]
    exact mem_markRequestCancelled_self hpos
  have hs1count :
      List.count N (runEvents s0 (tr1 ++ [WEvent.cancelMsg cp])).cancelledRequestIds ≤ 1 := by
    refine count_le_one_run N _ s0 ?_
    have h0 : List.count N s0.cancelledRequestIds = 0 := List.count_eq_zero.mpr hfresh
    omega
  constructor
  · rw [hrun]
    exact run_no_response N tr2 _ hs1clean (Or.inl hs1mem) hwf honce
  · rw [hrun]
    exact run_consumed N tr2 _ hnocancel (Or.inl ⟨hs1mem, hs1count, huse⟩)

/-- Witness for C2: request 5 arrives, its operation is in flight when the
cancel notice for 5 is processed, and the later finish phase for 5 is
suppressed — nothing is posted and 5 has been consumed from the cancelled
set. -/
theorem cancellationSuppressionWitness :
    noResponseFor 5 (runEvents ⟨[], true, ⟨[], []⟩, []⟩
        ([WEvent.arrive 5] ++ WEvent.cancelMsg (.jobj { targetId := some 5 }) ::
          [WEvent.finish 5 "saveNote" .jnull ⟨.ok [], .ok [], none, none, "2025"⟩])) = true ∧
    (5 : Int) ∉ (runEvents ⟨[], true, ⟨[], []⟩, []⟩
        ([WEvent.arrive 5] ++ WEvent.cancelMsg (.jobj { targetId := some 5 }) ::
          [WEvent.finish 5 "saveNote" .jnull
            ⟨.ok [], .ok [], none, none, "2025"⟩])).cancelledRequestIds :=
  cancellationSuppression ⟨[], true, ⟨[], []⟩, []⟩ [WEvent.arrive 5]
    [WEvent.finish 5 "saveNote" .jnull ⟨.ok [], .ok [], none, none, "2025"⟩] 5
    (.jobj { targetId := some 5 })
    (by decide) rfl rfl (by decide) (by decide) (by decide) (by decide) (by decide)
    ⟨WEvent.finish 5 "saveNote" .jnull ⟨.ok [], .ok [], none, none, "2025"⟩,
      List.mem_cons_self _ _, rfl⟩

end PlantyWiki
